import Mathlib

/-!
# Cloudway: plugin resolution, hub paths, application creation and proxy selection

A shallow embedding of the Go sources

* `broker/plugins.go`   (catalog merge, display-name sort, single tag resolution),
* `hub/hub.go`          (tag splitting, base directories, version lookup),
* `api/server/router/applications/applications.go` (the `create` handler and
  `getContainer`),
* `proxy/proxy.go`      (proxy constructor selection),
* `cmd/cwcli/cmds/table.go` (the table layout).

Conventions of the embedding.

* A Go `string` is a Lean `String`.  Go compares strings byte by byte; the
  bytes of a Lean string are its UTF-8 encoding (`goBytes`).  Splitting on the
  ASCII separators `/` and `:` acts on characters, which agrees with splitting
  the UTF-8 bytes because an ASCII byte never occurs inside a multi-byte
  sequence.
* A Go result list `(v, err)` is a Lean pair whose error component is an
  `Option Error`; `none` is the `nil` error.  A nilable `*manifest.Plugin` is an
  `Option Plugin`.
* A slice is a `List`.  The slices handled by the merge loop do not alias each
  other, so in-place updates are modelled by the list they leave behind.
* Code that can stop with a run-time panic (an index out of range, a negative
  `strings.Repeat` count) returns a `Run`, which is the result or the panic.
  Arithmetic on a Go `int` that can leave the 64-bit range wraps around
  (`intWrap`); lengths of strings and slices are natural numbers.
  Updates in place of a slice's elements are returned as the new state.
* Functions of the repository that the embedded files call but do not define
  (`hub.ParseTag`, `getAllVersions`, `matchVersion`, `archive.ReadManifest`,
  `PluginHub.ListPlugins`) and the state of the file system they read are
  fields of `PluginHub`, so every theorem holds for all of their behaviours;
  likewise the broker's container lookups (`ContainerFinder`) and the package
  `ansi` (`Ansi`).
-/

namespace Cloudway

/-! ## Errors -/

/-- Go `error` values met in the embedded code.  `errorf` carries the text of an
error made by `fmt.Errorf` or `errors.New`; `os` is an error coming from the
operating system, with the answer `os.IsNotExist` gives for it;
`NoNamespaceError` is the broker's error type of that name. -/
inductive Error where
  | errorf (msg : String)
  | os (notExist : Bool) (msg : String)
  | NoNamespaceError (user : String)
deriving DecidableEq, Repr

/-- The function `os.IsNotExist`. -/
def os.IsNotExist : Error → Bool
  | Error.os b _ => b
  | _ => false

/-! ## Strings -/

/-- The bytes of a Go string: the UTF-8 encoding of the text. -/
def goBytes (s : String) : List Nat :=
  (s.data.flatMap String.utf8EncodeChar).map UInt8.toNat

/-- Lexicographic comparison of byte sequences, the order behind Go's `<` on strings. -/
def bytesLess : List Nat → List Nat → Bool
  | _, [] => false
  | [], _ :: _ => true
  | x :: xs, y :: ys => decide (x < y) || (x == y && bytesLess xs ys)

/-- Go's `a < b` on strings. -/
def stringLess (a b : String) : Bool := bytesLess (goBytes a) (goBytes b)

/-- Go's `a <= b` on strings, that is, not `b < a`. -/
def stringLe (a b : String) : Prop := stringLess b a = false

instance (a b : String) : Decidable (stringLe a b) := by
  unfold stringLe; infer_instance

/-- The call `strings.SplitN(s, sep, 2)` for a one-character separator, on the
characters of `s`: the text before the first `sep` and, when there is a `sep`,
the text after it (`none` stands for a result slice of length one). -/
def splitN2 (sep : Char) : List Char → List Char × Option (List Char)
  | [] => ([], none)
  | c :: cs =>
    if c = sep then ([], some cs)
    else ((c :: (splitN2 sep cs).1), (splitN2 sep cs).2)

/-- The call `strings.Split(path, "/")` on the characters of `path`. -/
def splitSlash : List Char → List (List Char)
  | [] => [[]]
  | c :: cs =>
    if c = '/' then [] :: splitSlash cs
    else match splitSlash cs with
      | [] => [[c]]
      | w :: ws => (c :: w) :: ws

/-- The call `strings.Join(elems, "/")` on character lists. -/
def joinSlash : List (List Char) → List Char
  | [] => []
  | [w] => w
  | w :: ws => w ++ '/' :: joinSlash ws

/-- One path element met by `filepath.Clean`, with the elements kept so far in
`stack` (last kept element first): empty elements and `.` are dropped, `..`
removes the element before it, stays when nothing but `..` precedes it in a
relative path, and is dropped at the root. -/
def cleanStep (rooted : Bool) (stack : List (List Char)) (elem : List Char) :
    List (List Char) :=
  if elem = [] ∨ elem = ['.'] then stack
  else if elem = ['.', '.'] then
    match stack with
    | top :: below => if top = ['.', '.'] then elem :: stack else below
    | [] => if rooted then [] else [elem]
  else elem :: stack

/-- The library function `filepath.Clean` of Go (Unix), on characters: the
shortest path equivalent to `path` by lexical processing. -/
def cleanChars (path : List Char) : List Char :=
  let rooted := decide (path.head? = some '/')
  let stack := (splitSlash path).foldl (cleanStep rooted) []
  let out := (if rooted then ['/'] else []) ++ joinSlash stack.reverse
  if out = [] then ['.'] else out

/-- The library function `filepath.Clean`. -/
def filepath.Clean (path : String) : String := String.mk (cleanChars path.data)

/-- The library function `filepath.Join` of Go (Unix): leading empty elements
are skipped, the rest is joined with `/` and cleaned. -/
def filepath.Join : List String → String
  | [] => ""
  | e :: es =>
    if e ≠ "" then filepath.Clean (String.mk (joinSlash ((e :: es).map String.data)))
    else filepath.Join es

/-! ## Plugins and catalogs -/

/-- Modelled from the spec: `manifest.Category` is declared outside the embedded
files; the spec lists the categories Framework and Service. -/
inductive Category where
  | Framework
  | Service
deriving DecidableEq, Repr

/-- Modelled from the spec: `manifest.Plugin` is declared outside the embedded
files; the fields are those the spec's data model lists (endpoints left out,
no embedded function reads them).  The code reads `Name`, `DisplayName` and
`Shared`. -/
structure Plugin where
  Name : String
  DisplayName : String
  Version : String
  Category : Category
  Shared : Bool
  Path : String
deriving DecidableEq, Repr

/-- The method `byDisplayName.Less`, on the two elements it compares
(plugins.go:55). -/
def byDisplayName.Less (a b : Plugin) : Bool := stringLess a.DisplayName b.DisplayName

/-- One insertion step of `sort.Sort`: `x` moves past every element that is
less than it. -/
def sortInsert {α : Type} (less : α → α → Bool) (x : α) : List α → List α
  | [] => [x]
  | y :: ys => if less y x then y :: sortInsert less x ys else x :: y :: ys

/-- The library function `sort.Sort` of Go, driven by the `Less` method of its
argument.  The library promises an ascending order under `Less` and no
stability; it is modelled by insertion sort (the algorithm the library itself
runs on short slices), and the theorems use only that the result is an ordered
rearrangement of the input. -/
def sortSort {α : Type} (less : α → α → Bool) : List α → List α
  | [] => []
  | x :: xs => sortInsert less x (sortSort less xs)

/-- The inner loop of the merge (plugins.go:25-31) for a system plugin called
`name`: the first user plugin `pp` with `pp.Name == name` is returned together
with `user` after the splice `append(user[:j], user[j+1:]...)`; `none` when the
loop ends without a match. -/
def spliceByName (name : String) : List Plugin → Option (Plugin × List Plugin)
  | [] => none
  | pp :: rest =>
    if pp.Name = name then some (pp, rest)
    else match spliceByName name rest with
      | some (q, rest') => some (q, pp :: rest')
      | none => none

/-- The outer loop of the merge (plugins.go:24-32): returns the updated
`plugins` slice and what is left of `user`. -/
def overrideLoop : List Plugin → List Plugin → List Plugin × List Plugin
  | [], user => ([], user)
  | p :: ps, user =>
    match spliceByName p.Name user with
    | some (pp, user') => (pp :: (overrideLoop ps user').1, (overrideLoop ps user').2)
    | none => (p :: (overrideLoop ps user).1, (overrideLoop ps user).2)

/-- The statements of plugins.go:22-34 on the system slice `plugins` and the
user slice `user`: override, then append what is left of `user`. -/
def mergePlugins (plugins user : List Plugin) : List Plugin :=
  if user.length ≠ 0 then
    (overrideLoop plugins user).1 ++ (overrideLoop plugins user).2
  else
    plugins ++ user

/-! ## The plugin hub (hub/hub.go) -/

/-- The results of `hub.ParseTag`: service, namespace, name, version and error. -/
structure ParsedTag where
  service : String
  nspace : String
  name : String
  version : String
  err : Option Error
deriving DecidableEq, Repr

/-- The type `PluginHub`: the field `installDir` of the source, and the
functions of the repository that the embedded files call without defining them,
each with the part of the file system it reads: `getAllVersions`,
`matchVersion`, `archive.ReadManifest`, the method `ListPlugins` and
`hub.ParseTag`.  A call that returns a value and an error returns either the
value or the error. -/
structure PluginHub where
  installDir : String
  getAllVersions : String → Except Error (List String)
  matchVersion : List String → String → String
  ReadManifest : String → Except Error Plugin
  ListPlugins : String → Category → List Plugin
  ParseTag : String → ParsedTag

/-- The method `PluginHub.getBaseDir` (hub.go:87-93). -/
def PluginHub.getBaseDir (hub : PluginHub) (nspace name : String) : String :=
  if nspace = "" then
    filepath.Join [hub.installDir, ".cloudway", name]
  else
    filepath.Join [hub.installDir, nspace, name]

/-- The two `strings.SplitN` steps of `PluginHub.GetPluginPath` (hub.go:27-40):
the namespace, name and version a tag string is split into. -/
def splitTag (tag : String) : String × String × String :=
  let parts := splitN2 '/' tag.data
  let nspace : List Char := match parts.2 with
    | some _ => parts.1
    | none => []
  let tag1 : List Char := match parts.2 with
    | some rest => rest
    | none => tag.data
  let parts1 := splitN2 ':' tag1
  let version : List Char := match parts1.2 with
    | some v => v
    | none => []
  (String.mk nspace, String.mk parts1.1, String.mk version)

/-- The method `PluginHub.GetPluginPath` (hub.go:26-56). -/
def PluginHub.GetPluginPath (hub : PluginHub) (tag : String) : String × Option Error :=
  let nspace := (splitTag tag).1
  let name := (splitTag tag).2.1
  let version := (splitTag tag).2.2
  let base := hub.getBaseDir nspace name
  match hub.getAllVersions base with
  | Except.error err =>
    if os.IsNotExist err then
      ("", some (Error.errorf ("Plugin not found: " ++ name)))
    else
      ("", some err)
  | Except.ok versions =>
    let actualVersion := hub.matchVersion versions version
    if actualVersion = "" then
      ("", some (Error.errorf ("Version not found: " ++ version)))
    else
      (filepath.Join [base, actualVersion], none)

/-- The method `PluginHub.GetPluginInfo` (hub.go:58-64). -/
def PluginHub.GetPluginInfo (hub : PluginHub) (tag : String) : Option Plugin × Option Error :=
  match hub.GetPluginPath tag with
  | (_, some err) => (none, some err)
  | (path, none) =>
    match hub.ReadManifest path with
    | Except.ok plugin => (some plugin, none)
    | Except.error err => (none, some err)

/-! ## The user broker (broker/plugins.go) -/

/-- The type `UserBroker`: its hub and the value of `br.Namespace()`. -/
structure UserBroker where
  Hub : PluginHub
  Namespace : String

/-- The method `UserBroker.GetInstalledPlugins` (plugins.go:15-40). -/
def UserBroker.GetInstalledPlugins (br : UserBroker) (category : Category) : List Plugin :=
  let plugins := br.Hub.ListPlugins "" category
  let plugins :=
    if br.Namespace ≠ "" then
      mergePlugins plugins (br.Hub.ListPlugins br.Namespace category)
    else plugins
  sortSort byDisplayName.Less plugins

/-- The method `UserBroker.GetUserPlugins` (plugins.go:43-49). -/
def UserBroker.GetUserPlugins (br : UserBroker) (category : Category) : List Plugin :=
  if br.Namespace ≠ "" then
    sortSort byDisplayName.Less (br.Hub.ListPlugins br.Namespace category)
  else []

/-- The clean tag built in `getPluginInfoWithNames` (plugins.go:70-76). -/
def cleanTag (nspace name version : String) : String :=
  let t := name
  let t := if nspace ≠ "" then nspace ++ "/" ++ t else t
  if version ≠ "" then t ++ ":" ++ version else t

/-- The method `UserBroker.getPluginInfoWithNames` (plugins.go:64-100): service,
plugin and error. -/
def UserBroker.getPluginInfoWithNames (br : UserBroker) (tag : String) :
    String × Option Plugin × Option Error :=
  let parsed := br.Hub.ParseTag tag
  match parsed.err with
  | some err => (parsed.service, none, some err)
  | none =>
    let ct := cleanTag parsed.nspace parsed.name parsed.version
    if parsed.nspace ≠ "" then
      match br.Hub.GetPluginInfo ct with
      | (some plugin, none) =>
        if !plugin.Shared && parsed.nspace != br.Namespace then
          (parsed.service, some plugin, some (Error.errorf (ct ++ ": plugin not found")))
        else
          (parsed.service, some plugin, none)
      | r => (parsed.service, r.1, r.2)
    else
      let r : Option Plugin × Option Error :=
        if br.Namespace ≠ "" then
          br.Hub.GetPluginInfo (br.Namespace ++ "/" ++ ct)
        else
          (none, some (Error.NoNamespaceError ""))
      match r.2 with
      | some _ => (parsed.service, br.Hub.GetPluginInfo ct)
      | none => (parsed.service, r)

/-- The method `UserBroker.GetPluginInfo` (plugins.go:58-61). -/
def UserBroker.GetPluginInfo (br : UserBroker) (tag : String) : Option Plugin × Option Error :=
  (br.getPluginInfoWithNames tag).2

/-! ## Sample hubs and catalogs -/

/-- A hub whose system scope holds the catalog `system` and whose namespace
`demo` holds the catalog `demo`; `ListPlugins` filters by category.  No version
directory exists, and a tag is parsed as a bare name. -/
def catalogHub (system demo : List Plugin) : PluginHub where
  installDir := "/var/lib/cloudway/plugins"
  getAllVersions := fun base => Except.error (Error.os true base)
  matchVersion := fun _ _ => ""
  ReadManifest := fun path => Except.error (Error.os true path)
  ListPlugins := fun nspace category =>
    (if nspace = "" then system else if nspace = "demo" then demo else []).filter
      (fun q => decide (q.Category = category))
  ParseTag := fun tag => ⟨"", "", tag, "", none⟩

/-- System plugin `php`, version 5.6. -/
def phpOld : Plugin := ⟨"php", "PHP", "5.6", Category.Framework, false, "php/5.6"⟩

/-- System plugin `php`, version 7.0. -/
def phpNew : Plugin := ⟨"php", "PHP", "7.0", Category.Framework, false, "php/7.0"⟩

/-- A plugin `php` installed by the tenant `demo`. -/
def phpDemo : Plugin := ⟨"php", "My PHP", "7.1", Category.Framework, false, "demo/php/7.1"⟩

/-- System plugin `go`. -/
def goSys : Plugin := ⟨"go", "Go", "1.6", Category.Framework, false, "go/1.6"⟩

/-- A tenant of namespace `demo` whose `php` meets two system versions of `php`. -/
def twoVersionsBroker : UserBroker := ⟨catalogHub [phpOld, phpNew] [phpDemo], "demo"⟩

/-- A tenant of namespace `demo` whose `php` meets one system `php` and one system `go`. -/
def oneVersionBroker : UserBroker := ⟨catalogHub [phpNew, goSys] [phpDemo], "demo"⟩

/-- Whether an error is a plugin-not-found error: the Hub's
`Plugin not found: <name>` or the broker's `<tag>: plugin not found`. -/
def Error.isPluginNotFound : Error → Bool
  | Error.errorf msg =>
    ("Plugin not found: " : String).data.isPrefixOf msg.data ||
      (": plugin not found" : String).data.isSuffixOf msg.data
  | _ => false

/-- The non-shared plugin `foo` 1.0 of the tenant `other`. -/
def fooOther : Plugin := ⟨"foo", "Foo", "1.0", Category.Service, false, "/hub/other/foo/1.0"⟩

/-- The shared plugin `bar` 1.0 of the tenant `other`. -/
def barOther : Plugin := ⟨"bar", "Bar", "1.0", Category.Service, true, "/hub/other/bar/1.0"⟩

/-- The system plugin `php` 7.0 on the sample disk. -/
def phpDisk : Plugin := ⟨"php", "PHP", "7.0", Category.Framework, false, "/hub/.cloudway/php/7.0"⟩

/-- The plugin `php` 7.1 of the tenant `demo` on the sample disk. -/
def phpDiskDemo : Plugin :=
  ⟨"php", "My PHP", "7.1", Category.Framework, false, "/hub/demo/php/7.1"⟩

/-- A hub on a small disk under `/hub`: the tenant `other` has `foo` 1.0 (not
shared) and `bar` 1.0 (shared), the tenant `demo` has `php` 7.1, the system
scope has `php` 7.0 and `go` without any manifest, and the directory
`/hub/locked/foo` cannot be read.  A requested version must match exactly, an
empty request selects the first version listed.  A tag is parsed into
namespace, name and version as `GetPluginPath` splits it, without a service. -/
def diskHub : PluginHub where
  installDir := "/hub"
  getAllVersions := fun base =>
    if base = "/hub/other/foo" then Except.ok ["1.0"]
    else if base = "/hub/other/bar" then Except.ok ["1.0"]
    else if base = "/hub/demo/php" then Except.ok ["7.1"]
    else if base = "/hub/.cloudway/php" then Except.ok ["7.0"]
    else if base = "/hub/.cloudway/go" then Except.ok ["1.6"]
    else if base = "/hub/locked/foo" then Except.error (Error.os false "permission denied")
    else Except.error (Error.os true "no such file or directory")
  matchVersion := fun versions version =>
    if version = "" then versions.head?.getD ""
    else if version ∈ versions then version
    else ""
  ReadManifest := fun path =>
    if path = "/hub/other/foo/1.0" then Except.ok fooOther
    else if path = "/hub/other/bar/1.0" then Except.ok barOther
    else if path = "/hub/demo/php/7.1" then Except.ok phpDiskDemo
    else if path = "/hub/.cloudway/php/7.0" then Except.ok phpDisk
    else Except.error (Error.os true "no such file or directory")
  ListPlugins := fun _ _ => []
  ParseTag := fun tag => ⟨"", (splitTag tag).1, (splitTag tag).2.1, (splitTag tag).2.2, none⟩

/-- The tenant `demo` on the sample disk. -/
def demoBroker : UserBroker := ⟨diskHub, "demo"⟩

/-- A caller without a namespace on the sample disk. -/
def anonBroker : UserBroker := ⟨diskHub, ""⟩

/-! ## The applications router: `create` (applications.go:130-182) -/

/-- Regular expressions as far as `namePattern` needs them: a character class
given by its ranges, concatenation, alternation (met in derivatives only),
repetition, the empty word and the expression matching nothing. -/
inductive Regex where
  | fail
  | eps
  | cls (ranges : List (Char × Char))
  | seq (r s : Regex)
  | alt (r s : Regex)
  | star (r : Regex)
deriving Repr

/-- Membership of a character in a class `[x-y...]`. -/
def inClass (ranges : List (Char × Char)) (c : Char) : Bool :=
  ranges.any (fun r => decide (r.1.toNat ≤ c.toNat) && decide (c.toNat ≤ r.2.toNat))

/-- Whether an expression matches the empty word. -/
def Regex.nullable : Regex → Bool
  | Regex.fail => false
  | Regex.eps => true
  | Regex.cls _ => false
  | Regex.seq r s => r.nullable && s.nullable
  | Regex.alt r s => r.nullable || s.nullable
  | Regex.star _ => true

/-- The expression matching what is left of a match after the character `c`. -/
def Regex.deriv (c : Char) : Regex → Regex
  | Regex.fail => Regex.fail
  | Regex.eps => Regex.fail
  | Regex.cls ranges => if inClass ranges c then Regex.eps else Regex.fail
  | Regex.seq r s =>
    if r.nullable then Regex.alt (Regex.seq (r.deriv c) s) (s.deriv c)
    else Regex.seq (r.deriv c) s
  | Regex.alt r s => Regex.alt (r.deriv c) (s.deriv c)
  | Regex.star r => Regex.seq (r.deriv c) (Regex.star r)

/-- Whether an expression matches a whole word. -/
def Regex.matchChars (r : Regex) (w : List Char) : Bool :=
  (w.foldl (fun r c => r.deriv c) r).nullable

/-- The method `MatchString` for an expression anchored by `^` and `$`: without
flags the anchors stand for the beginning and the end of the text, so the
expression between them has to match the whole string. -/
def Regex.MatchString (r : Regex) (s : String) : Bool := r.matchChars s.data

/-- The variable `namePattern`: `regexp.MustCompile("^[a-z][a-z_0-9]*$")`, the
expression between the anchors. -/
def namePattern : Regex :=
  Regex.seq (Regex.cls [('a', 'z')])
    (Regex.star (Regex.cls [('a', 'z'), ('_', '_'), ('0', '9')]))

/-- The request body `types.CreateApplication`, declared outside the embedded
files, with the fields the handler reads. -/
structure types.CreateApplication where
  Name : String
  Framework : String
  Services : List String
  Repo : String
deriving DecidableEq, Repr

/-- The type `container.CreateOptions`, declared outside the embedded files,
with the fields the handler sets. -/
structure container.CreateOptions where
  Name : String
  Repo : String
  Scaling : Nat
deriving DecidableEq, Repr

/-- A call the handler makes on the user broker. -/
inductive BrokerCall where
  | CreateApplication (user : String) (opts : container.CreateOptions) (tags : List String)
  | StartContainers (containers : List String)
deriving DecidableEq, Repr

/-- What the handler `create` meets: the results of `httputils.ParseForm`, of
`httputils.CheckForJSON`, of `currentUser` (user and error), of decoding the
body (request and error), and the behaviour of the broker's
`CreateApplication` and `StartContainers` for the user.  Users and containers
are named by strings. -/
structure CreateRequest where
  ParseForm : Option Error
  CheckForJSON : Option Error
  currentUser : String × Option Error
  Decode : types.CreateApplication × Option Error
  CreateApplication : String → container.CreateOptions → List String → List String × Option Error
  StartContainers : String → List String → Option Error

/-- What the handler `create` does: the status code and body written to the
response (if any), the error it returns, and the broker calls it made, in
order. -/
structure CreateResult where
  status : Option Nat
  body : String
  err : Option Error
  calls : List BrokerCall
deriving DecidableEq, Repr

/-- The status `http.StatusBadRequest`. -/
def StatusBadRequest : Nat := 400

/-- The status `http.StatusCreated`. -/
def StatusCreated : Nat := 201

/-- The library function `http.Error`: the status and the message followed by a
line break are written to the response. -/
def httpError (msg : String) (code : Nat) : CreateResult :=
  ⟨some code, msg ++ "\n", none, []⟩

/-- The handler `applicationsRouter.create` (applications.go:132-182). -/
def applicationsRouter.create (r : CreateRequest) : CreateResult :=
  match r.ParseForm with
  | some err => ⟨none, "", some err, []⟩
  | none =>
  match r.CheckForJSON with
  | some err => ⟨none, "", some err, []⟩
  | none =>
  match r.currentUser.2 with
  | some err => ⟨none, "", some err, []⟩
  | none =>
  match r.Decode.2 with
  | some err => ⟨none, "", some err, []⟩
  | none =>
    let user := r.currentUser.1
    let req := r.Decode.1
    let opts : container.CreateOptions := ⟨req.Name, req.Repo, 1⟩
    if !namePattern.MatchString opts.Name then
      httpError
        "The application name can only contains lower case letters, digits or underscores."
        StatusBadRequest
    else if req.Framework = "" then
      httpError "The application framework cannot be empty." StatusBadRequest
    else
      let tags := req.Framework :: req.Services
      let created := r.CreateApplication user opts tags
      match created.2 with
      | some err => ⟨none, "", some err, [BrokerCall.CreateApplication user opts tags]⟩
      | none =>
        match r.StartContainers user created.1 with
        | some err =>
          ⟨none, "", some err,
            [BrokerCall.CreateApplication user opts tags, BrokerCall.StartContainers created.1]⟩
        | none =>
          ⟨some StatusCreated, "", none,
            [BrokerCall.CreateApplication user opts tags, BrokerCall.StartContainers created.1]⟩

/-- A create request by the user `alice` whose checks and decoding succeed, for
the application `name` on `framework`; the broker creates one container and
starts it. -/
def sampleCreate (name framework : String) : CreateRequest where
  ParseForm := none
  CheckForJSON := none
  currentUser := ("alice", none)
  Decode := (⟨name, framework, [], ""⟩, none)
  CreateApplication := fun _ opts _ => ([opts.Name ++ "-1"], none)
  StartContainers := fun _ _ => none

/-! ## The proxy registry (proxy/proxy.go) -/

/-- The library type `url.URL`, with the field `New` reads and the rest of the
address. -/
structure URL where
  Scheme : String
  Rest : String
deriving DecidableEq, Repr

/-- The interface `Proxy`: a connected backend, named by the address it was
opened with. -/
structure Proxy where
  backend : String
  address : String
deriving DecidableEq, Repr

/-- The type `proxyFunc`. -/
abbrev proxyFunc := URL → Option Proxy × Option Error

/-- The function `proxy.New` (proxy.go:27-42).  `registry` is the content of
`proxyRegistry` (`none` for a scheme with no constructor) and `urlParse` the
library function `url.Parse`. -/
def proxy.New (registry : String → Option proxyFunc) (urlParse : String → Except Error URL)
    (proxyUrl : String) : Option Proxy × Option Error :=
  if proxyUrl = "" then
    (none, some (Error.errorf "Proxy URL not configured"))
  else
    match urlParse proxyUrl with
    | Except.error err => (none, some err)
    | Except.ok u =>
      match registry u.Scheme with
      | none => (none, some (Error.errorf ("Unsuported proxy scheme: " ++ u.Scheme)))
      | some fn => fn u

/-- A registry with the one scheme `hipache`, whose constructor refuses an
address without a host. -/
def sampleRegistry : String → Option proxyFunc := fun scheme =>
  if scheme = "hipache" then
    some (fun u =>
      if u.Rest = "" then (none, some (Error.errorf "missing host"))
      else (some ⟨"hipache", u.Rest⟩, none))
  else none

/-- A parser of addresses of the form `scheme://rest`, by the first `:`. -/
def sampleParse (s : String) : Except Error URL :=
  match (splitN2 ':' s.data).2 with
  | some ('/' :: '/' :: rest) => Except.ok ⟨String.mk (splitN2 ':' s.data).1, String.mk rest⟩
  | _ => Except.error (Error.errorf "parse error")

/-! ## Run-time panics -/

/-- The outcome of running Go code that can stop with a run-time panic: the
values returned, or the panic. -/
inductive Run (α : Type) where
  | ret (v : α)
  | panic (msg : String)
deriving DecidableEq, Repr

/-! ## The applications router: `getContainer` (applications.go:324-340) -/

/-- The type `container.Container`, declared outside the embedded files; a
container is named by its ID. -/
structure Container where
  ID : String
deriving DecidableEq, Repr

/-- The broker's lookups `FindApplications(name, namespace)` and
`FindService(name, namespace, service)`, declared outside the embedded files:
each returns a container list and an error. -/
structure ContainerFinder where
  FindApplications : String → String → List Container × Option Error
  FindService : String → String → String → List Container × Option Error

/-- The method `applicationsRouter.getContainers` (applications.go:324-331);
`vars` maps a missing key to the empty string, as a Go map does. -/
def applicationsRouter.getContainers (ar : ContainerFinder) (nspace : String)
    (vars : String → String) : List Container × Option Error :=
  let name := vars "name"
  let service := vars "service"
  if service = "" ∨ service = "*" ∨ service = "_" then
    ar.FindApplications name nspace
  else
    ar.FindService name nspace service

/-- The method `applicationsRouter.getContainer` (applications.go:333-340): with
no error it returns `cs[0]`, which panics on an empty list. -/
def applicationsRouter.getContainer (ar : ContainerFinder) (nspace : String)
    (vars : String → String) : Run (Option Container × Option Error) :=
  match applicationsRouter.getContainers ar nspace vars with
  | (cs, none) =>
    match cs with
    | c :: _ => Run.ret (some c, none)
    | [] => Run.panic "index out of range"
  | (_, some err) => Run.ret (none, some err)

/-- A broker on which the application `shop` of the tenant `demo` has the
containers `c1` and `c2`, its service `mysql` the container `c2`, the
application `gone` fails to be looked up, and every other lookup finds no
container and reports no error. -/
def sampleFinder : ContainerFinder where
  FindApplications := fun name nspace =>
    if name = "shop" ∧ nspace = "demo" then ([⟨"c1"⟩, ⟨"c2"⟩], none)
    else if name = "gone" then ([], some (Error.errorf "cannot connect to the container engine"))
    else ([], none)
  FindService := fun name nspace service =>
    if name = "shop" ∧ nspace = "demo" ∧ service = "mysql" then ([⟨"c2"⟩], none)
    else ([], none)

/-- The route variables of a request for the application `name` and the service
`service`. -/
def routeVars (name service : String) : String → String := fun key =>
  if key = "name" then name else if key = "service" then service else ""

/-! ## The table of the command line client (cmd/cwcli/cmds/table.go) -/

/-- The value a Go `int` holds after an arithmetic result `x`, for the 64-bit
`int` of the platforms the servers and the client are built for: the result
wraps around into the range from -2^63 to 2^63 - 1. -/
def intWrap (x : Int) : Int :=
  (x + 9223372036854775808) % 18446744073709551616 - 9223372036854775808

/-- Go's `len(s)` of a string: the number of its bytes. -/
def goLen (s : String) : Nat := (goBytes s).length

/-- The characters of `strings.Repeat(s, count)` for a count that is not
negative. -/
def repeatChars (s : List Char) : Nat → List Char
  | 0 => []
  | n + 1 => s ++ repeatChars s n

/-- The library function `strings.Repeat`, which panics on a negative count.
The limits of memory on the size of the result are outside the model. -/
def stringsRepeat (s : String) (count : Int) : Run String :=
  if count < 0 then Run.panic "strings: negative Repeat count"
  else Run.ret (String.mk (repeatChars s.data count.toNat))

/-- The call `strings.Join(cells, "")`. -/
def joinCells : List String → String
  | [] => ""
  | c :: cs => c ++ joinCells cs

/-- The functions of the package `ansi` that the table calls, declared outside
the embedded files: `Hilite`, and the method `Wrap` of a colour (a colour is
named by a string). -/
structure Ansi where
  Hilite : String → String
  Wrap : String → String → String

/-- The type `Table` (table.go:10-14); `colors` is `none` for the nil slice and
holds `none` for a nil colour. -/
structure Table where
  titles : List String
  rows : List (List String)
  colors : Option (List (Option String))
deriving DecidableEq, Repr

/-- The function `NewTable` (table.go:16-20). -/
def NewTable (titles : List String) : Table := ⟨titles, [], none⟩

/-- The method `Table.AddRow` (table.go:29-31). -/
def Table.AddRow (tab : Table) (row : List String) : Table :=
  { tab with rows := tab.rows ++ [row] }

/-- The method `Table.AddSubtitle` (table.go:33-35). -/
def Table.AddSubtitle (tab : Table) (subtitle : String) : Table :=
  { tab with rows := tab.rows ++ [[subtitle]] }

/-- The method `Table.SetColor` (table.go:22-27); the assignment panics for an
index outside the titles. -/
def Table.SetColor (tab : Table) (i : Nat) (color : Option String) : Run Table :=
  let colors := match tab.colors with
    | none => List.replicate tab.titles.length none
    | some cs => cs
  if i < colors.length then Run.ret { tab with colors := some (colors.set i color) }
  else Run.panic "index out of range"

/-- The inner loop of the width computation (table.go:45-49) for one row that
is no subtitle: every cell widens its column; a cell beyond the last title
panics. -/
def widthsRow : List Nat → List String → Run (List Nat)
  | ws, [] => Run.ret ws
  | [], _ :: _ => Run.panic "index out of range"
  | w :: ws, cell :: cells =>
    match widthsRow ws cells with
    | Run.panic msg => Run.panic msg
    | Run.ret ws' => Run.ret ((if goLen cell > w then goLen cell else w) :: ws')

/-- The loop over the rows of the width computation (table.go:43-51). -/
def widthsRows : List Nat → List (List String) → Run (List Nat)
  | ws, [] => Run.ret ws
  | ws, row :: rows =>
    if row.length ≠ 1 then
      match widthsRow ws row with
      | Run.panic msg => Run.panic msg
      | Run.ret ws' => widthsRows ws' rows
    else widthsRows ws rows

/-- The body of the loop of `padding` (table.go:75-81) at one index, on the
cells from that index on: `last` says whether the index is `len(widths)-1`,
`w` is the width at the index, and `cols` holds the colours from the index on
when colours apply (`none` for the header and for a table without colours).
`gap` is the value of a Go `int`, and `pad` is computed in 64-bit arithmetic,
so it wraps around (`intWrap`). -/
def paddingCell (ansi : Ansi) (gap : Int) (cols : Option (List (Option String)))
    (last : Bool) (w : Nat) (cells : List String) : Run (List String) :=
  let padded : Run (List String) :=
    if last then Run.ret cells
    else match cells with
      | [] => Run.panic "index out of range"
      | c :: cs =>
        match stringsRepeat " " (intWrap ((w : Int) - (goLen c : Int) + gap)) with
        | Run.panic msg => Run.panic msg
        | Run.ret spaces => Run.ret ((c ++ spaces) :: cs)
  match padded with
  | Run.panic msg => Run.panic msg
  | Run.ret cells1 =>
    match cols with
    | none => Run.ret cells1
    | some [] => Run.panic "index out of range"
    | some (none :: _) => Run.ret cells1
    | some (some color :: _) =>
      match cells1 with
      | [] => Run.panic "index out of range"
      | c :: cs => Run.ret (ansi.Wrap color c :: cs)

/-- The loop of `padding` (table.go:74-82) over the widths, on the cells from
the current index on: the cells after the updates `cells[i] += ...` and
`cells[i] = Wrap(cells[i])`. -/
def paddingLoop (ansi : Ansi) (gap : Int) :
    Option (List (Option String)) → List Nat → List String → Run (List String)
  | _, [], cells => Run.ret cells
  | cols, w :: ws, cells =>
    match paddingCell ansi gap cols (decide (ws = [])) w cells with
    | Run.panic msg => Run.panic msg
    | Run.ret [] => paddingLoop ansi gap (cols.map List.tail) ws []
    | Run.ret (c :: cs) =>
      match paddingLoop ansi gap (cols.map List.tail) ws cs with
      | Run.panic msg => Run.panic msg
      | Run.ret cs' => Run.ret (c :: cs')

/-- The method `Table.padding` (table.go:73-89): the line returned and the
cells as the updates in place leave them. -/
def Table.padding (ansi : Ansi) (colors : Option (List (Option String))) (widths : List Nat)
    (cells : List String) (gap : Int) (header : Bool) : Run (String × List String) :=
  match paddingLoop ansi gap (if header then none else colors) widths cells with
  | Run.panic msg => Run.panic msg
  | Run.ret cells' =>
    let row := joinCells cells'
    let row := if header then ansi.Hilite row else row
    Run.ret (row ++ "\n", cells')

/-- The second loop of `Display` (table.go:54-70) from row index `i` on, with
the flag `printHeader` and the titles as earlier header lines left them: the
strings written to `out` in order, the titles and the rows after the updates in
place. -/
def displayLoop (ansi : Ansi) (colors : Option (List (Option String))) (widths : List Nat)
    (gap : Int) : Nat → Bool → List String → List (List String) →
    Run (List String × List String × List (List String))
  | _, _, titles, [] => Run.ret ([], titles, [])
  | i, _, titles, [subtitle] :: rest =>
    match displayLoop ansi colors widths gap (i + 1) true titles rest with
    | Run.panic msg => Run.panic msg
    | Run.ret (out, titles', rows') =>
      Run.ret ((if i ≠ 0 then ["\n"] else []) ++ [subtitle, "\n"] ++ out, titles',
        [subtitle] :: rows')
  | i, printHeader, titles, row :: rest =>
    let head : Run (List String × List String) :=
      if printHeader then
        match Table.padding ansi colors widths titles gap true with
        | Run.panic msg => Run.panic msg
        | Run.ret (line, titles1) => Run.ret ([line], titles1)
      else Run.ret ([], titles)
    match head with
    | Run.panic msg => Run.panic msg
    | Run.ret (written, titles1) =>
      match Table.padding ansi colors widths row gap false with
      | Run.panic msg => Run.panic msg
      | Run.ret (line, row') =>
        match displayLoop ansi colors widths gap (i + 1) false titles1 rest with
        | Run.panic msg => Run.panic msg
        | Run.ret (out, titles', rows') =>
          Run.ret (written ++ [line] ++ out, titles', row' :: rows')

/-- The method `Table.Display` (table.go:37-71): the strings written to `out`
in order and the table after the updates in place, or the panic.  `gap` is the
value of a Go `int` of 64 bits, from -2^63 to 2^63 - 1; the padding computed
from it wraps around as machine arithmetic does. -/
def Table.Display (ansi : Ansi) (tab : Table) (gap : Int) : Run (List String × Table) :=
  match widthsRows (tab.titles.map goLen) tab.rows with
  | Run.panic msg => Run.panic msg
  | Run.ret widths =>
    match displayLoop ansi tab.colors widths gap 0 true tab.titles tab.rows with
    | Run.panic msg => Run.panic msg
    | Run.ret (out, titles', rows') => Run.ret (out, { tab with titles := titles', rows := rows' })

/-- The byte offset `sum over i < k of (w_i + gap)` of column `k`. -/
def columnOffset (widths : List Nat) (gap : Int) (k : Nat) : Nat :=
  ((widths.take k).map (fun w => w + gap.toNat)).sum

/-- Every cell of `cells` stands in `line` at the byte offset of its column. -/
def columnsBeginAt (widths : List Nat) (gap : Int) (cells : List String) (line : String) : Prop :=
  ∀ (k : Nat) (c : String), cells[k]? = some c →
    ((goBytes line).drop (columnOffset widths gap k)).take (goLen c) = goBytes c

/-- A terminal on which `Hilite` makes the text bold with the escape sequences
`ESC[1m` and `ESC[0m`, and a colour wraps the text the same way. -/
def boldAnsi : Ansi where
  Hilite := fun s => "\x1b[1m" ++ s ++ "\x1b[0m"
  Wrap := fun color s => "\x1b[" ++ color ++ "m" ++ s ++ "\x1b[0m"

/-- An output without highlighting: `Hilite` and `Wrap` return the text. -/
def plainAnsi : Ansi where
  Hilite := fun s => s
  Wrap := fun _ s => s

/-- A table of plugins with two titles, a subtitle and two data rows. -/
def sampleTable : Table :=
  (((NewTable ["NAME", "VERSION"]).AddSubtitle "Frameworks").AddRow ["php", "7.0"]).AddRow
    ["golang", "1.6"]

/-- A plugin `node` installed by the tenant `demo`. -/
def nodeDemo : Plugin := ⟨"node", "Express", "4.0", Category.Framework, false, "demo/node/4.0"⟩

/-- A tenant of namespace `demo` with two plugins of its own, `php` and `node`,
listed in that order, next to the system plugins `php` and `go`. -/
def twoPluginsBroker : UserBroker := ⟨catalogHub [phpNew, goSys] [phpDemo, nodeDemo], "demo"⟩

/-- A path element as `filepath.Clean` keeps it on its stack: not empty, not
`.`, and without `/`. -/
def keptElement (x : List Char) : Prop := x ≠ [] ∧ x ≠ ['.'] ∧ '/' ∉ x

/-! ## Order lemmas -/

theorem bytesLess_asymm : ∀ a b : List Nat, bytesLess a b = true → bytesLess b a = false
  | _, [] => by simp [bytesLess]
  | [], _ :: _ => by simp [bytesLess]
  | x :: xs, y :: ys => by
    intro h
    simp only [bytesLess, Bool.or_eq_true, Bool.and_eq_true, decide_eq_true_eq, beq_iff_eq] at h
    simp only [bytesLess, Bool.or_eq_false_iff, Bool.and_eq_false_iff, decide_eq_false_iff_not,
      beq_eq_false_iff_ne]
    rcases h with h | ⟨h1, h2⟩
    · exact ⟨by omega, Or.inl (by omega)⟩
    · exact ⟨by omega, Or.inr (bytesLess_asymm xs ys h2)⟩

theorem bytesLess_le_trans : ∀ a b c : List Nat,
    bytesLess b a = false → bytesLess c b = false → bytesLess c a = false
  | [], _, c => by
    intro _ _
    cases c <;> simp [bytesLess]
  | _ :: _, [], _ => by simp [bytesLess]
  | _ :: _, _ :: _, [] => by simp [bytesLess]
  | x :: xs, y :: ys, z :: zs => by
    intro h1 h2
    simp only [bytesLess, Bool.or_eq_false_iff, Bool.and_eq_false_iff, decide_eq_false_iff_not,
      beq_eq_false_iff_ne] at h1 h2 ⊢
    obtain ⟨h1a, h1b⟩ := h1
    obtain ⟨h2a, h2b⟩ := h2
    refine ⟨by omega, ?_⟩
    by_cases hzx : z = x
    · right
      have hxy : y = x := by omega
      have hzy : z = y := by omega
      have e1 : bytesLess ys xs = false := by
        rcases h1b with h | h
        · exact absurd hxy h
        · exact h
      have e2 : bytesLess zs ys = false := by
        rcases h2b with h | h
        · exact absurd hzy h
        · exact h
      exact bytesLess_le_trans xs ys zs e1 e2
    · left
      exact hzx

/-! ## Sorting lemmas -/

theorem sortInsert_perm {α : Type} (less : α → α → Bool) (x : α) :
    ∀ l : List α, (sortInsert less x l).Perm (x :: l)
  | [] => List.Perm.refl _
  | y :: ys => by
    unfold sortInsert
    split
    · exact ((sortInsert_perm less x ys).cons y).trans (List.Perm.swap x y ys)
    · exact List.Perm.refl _

theorem sortSort_perm {α : Type} (less : α → α → Bool) :
    ∀ l : List α, (sortSort less l).Perm l
  | [] => List.Perm.refl _
  | x :: xs => by
    unfold sortSort
    exact (sortInsert_perm less x _).trans ((sortSort_perm less xs).cons x)

theorem sortInsert_pairwise {α : Type} (less : α → α → Bool)
    (hasymm : ∀ a b, less a b = true → less b a = false)
    (htrans : ∀ a b c, less b a = false → less c b = false → less c a = false) (x : α) :
    ∀ l : List α, l.Pairwise (fun a b => less b a = false) →
      (sortInsert less x l).Pairwise (fun a b => less b a = false)
  | [], _ => by simp [sortInsert]
  | y :: ys, h => by
    unfold sortInsert
    rw [List.pairwise_cons] at h
    split
    · rename_i hyx
      rw [List.pairwise_cons]
      refine ⟨?_, sortInsert_pairwise less hasymm htrans x ys h.2⟩
      intro z hz
      rcases List.mem_cons.mp ((sortInsert_perm less x ys).mem_iff.mp hz) with rfl | hz
      · exact hasymm _ _ hyx
      · exact h.1 z hz
    · rename_i hyx
      have hyx' : less y x = false := by simpa using hyx
      rw [List.pairwise_cons]
      refine ⟨?_, List.pairwise_cons.mpr h⟩
      intro z hz
      rcases List.mem_cons.mp hz with rfl | hz
      · exact hyx'
      · exact htrans x y z hyx' (h.1 z hz)

theorem sortSort_pairwise {α : Type} (less : α → α → Bool)
    (hasymm : ∀ a b, less a b = true → less b a = false)
    (htrans : ∀ a b c, less b a = false → less c b = false → less c a = false) :
    ∀ l : List α, (sortSort less l).Pairwise (fun a b => less b a = false)
  | [] => by simp [sortSort]
  | x :: xs => by
    unfold sortSort
    exact sortInsert_pairwise less hasymm htrans x _ (sortSort_pairwise less hasymm htrans xs)

theorem sortSort_byDisplayName_pairwise (l : List Plugin) :
    (sortSort byDisplayName.Less l).Pairwise
      (fun a b => stringLe a.DisplayName b.DisplayName) :=
  sortSort_pairwise byDisplayName.Less
    (fun _ _ h => bytesLess_asymm _ _ h)
    (fun _ _ _ h1 h2 => bytesLess_le_trans _ _ _ h1 h2) l

/-! ## Merge lemmas -/

theorem spliceByName_some (n : String) :
    ∀ (u : List Plugin) (q : Plugin) (u' : List Plugin),
      spliceByName n u = some (q, u') → q.Name = n ∧ u.Perm (q :: u')
  | [], _, _ => by simp [spliceByName]
  | pp :: rest, q, u' => by
    unfold spliceByName
    split
    · rename_i hpp
      intro h
      simp only [Option.some.injEq, Prod.mk.injEq] at h
      obtain ⟨rfl, rfl⟩ := h
      exact ⟨hpp, List.Perm.refl _⟩
    · split
      · rename_i q0 rest0 heq
        intro h
        simp only [Option.some.injEq, Prod.mk.injEq] at h
        obtain ⟨rfl, rfl⟩ := h
        obtain ⟨h1, h2⟩ := spliceByName_some n rest q0 rest0 heq
        exact ⟨h1, (h2.cons pp).trans (List.Perm.swap q0 pp rest0)⟩
      · intro h
        exact absurd h (by simp)

theorem spliceByName_none (n : String) :
    ∀ u : List Plugin, spliceByName n u = none → ∀ q ∈ u, q.Name ≠ n
  | [] => by simp
  | pp :: rest => by
    unfold spliceByName
    split
    · intro h
      exact absurd h (by simp)
    · rename_i hpp
      split
      · intro h
        exact absurd h (by simp)
      · rename_i heq
        intro _ q hq
        rcases List.mem_cons.mp hq with rfl | hq
        · exact hpp
        · exact spliceByName_none n rest heq q hq

theorem mergePlugins_eq (plugins user : List Plugin) :
    mergePlugins plugins user = (overrideLoop plugins user).1 ++ (overrideLoop plugins user).2 := by
  unfold mergePlugins
  split
  · rfl
  · rename_i h
    have hu : user = [] := by
      cases user with
      | nil => rfl
      | cons a l => simp at h
    subst hu
    have : ∀ ps : List Plugin, overrideLoop ps [] = (ps, []) := by
      intro ps
      induction ps with
      | nil => rfl
      | cons p ps ih => simp [overrideLoop, spliceByName, ih]
    rw [this]

theorem overrideLoop_countP (n : String) :
    ∀ S U : List Plugin,
      List.countP (fun q => decide (q.Name = n)) ((overrideLoop S U).1 ++ (overrideLoop S U).2)
        = max (List.countP (fun q => decide (q.Name = n)) S)
              (List.countP (fun q => decide (q.Name = n)) U)
  | [], U => by simp [overrideLoop]
  | p :: ps, U => by
    unfold overrideLoop
    split
    · rename_i pp U' heq
      obtain ⟨hname, hperm⟩ := spliceByName_some p.Name U pp U' heq
      have ih := overrideLoop_countP n ps U'
      have hU := hperm.countP_eq (fun q => decide (q.Name = n))
      simp only [List.cons_append, List.countP_cons, hname] at ih hU ⊢
      rw [ih, hU]
      split <;> omega
    · rename_i heq
      have hnone := spliceByName_none p.Name U heq
      have ih := overrideLoop_countP n ps U
      simp only [List.cons_append, List.countP_cons] at ih ⊢
      rw [ih]
      by_cases hp : p.Name = n
      · have hz : List.countP (fun q => decide (q.Name = n)) U = 0 := by
          rw [List.countP_eq_zero]
          intro q hq
          have := hnone q hq
          simp only [decide_eq_true_eq]
          rw [← hp]
          exact this
        simp [hp, hz]
      · simp [hp]

theorem overrideLoop_filter_perm (n : String) :
    ∀ S U : List Plugin,
      List.countP (fun q => decide (q.Name = n)) S ≤ List.countP (fun q => decide (q.Name = n)) U →
      (((overrideLoop S U).1 ++ (overrideLoop S U).2).filter (fun q => decide (q.Name = n))).Perm
        (U.filter (fun q => decide (q.Name = n)))
  | [], U, _ => by simp [overrideLoop]
  | p :: ps, U, hle => by
    unfold overrideLoop
    split
    · rename_i pp U' heq
      obtain ⟨hname, hperm⟩ := spliceByName_some p.Name U pp U' heq
      have hU := hperm.countP_eq (fun q => decide (q.Name = n))
      simp only [List.countP_cons, hname] at hle hU
      have hle' : List.countP (fun q => decide (q.Name = n)) ps
          ≤ List.countP (fun q => decide (q.Name = n)) U' := by omega
      have ih := overrideLoop_filter_perm n ps U' hle'
      have hf := hperm.filter (fun q => decide (q.Name = n))
      refine List.Perm.trans ?_ hf.symm
      simp only [List.cons_append, List.filter_cons]
      split
      · exact ih.cons pp
      · exact ih
    · rename_i heq
      have hnone := spliceByName_none p.Name U heq
      have hp : p.Name ≠ n := by
        intro hp
        have hz : List.countP (fun q => decide (q.Name = n)) U = 0 := by
          rw [List.countP_eq_zero]
          intro q hq
          have := hnone q hq
          simp only [decide_eq_true_eq]
          rw [← hp]
          exact this
        simp [List.countP_cons, hp, hz] at hle
      simp only [List.countP_cons, hp, decide_False, Bool.false_eq_true, if_false,
        Nat.add_zero] at hle
      have ih := overrideLoop_filter_perm n ps U hle
      simpa [List.filter_cons, hp] using ih

theorem nodup_names_iff (l : List Plugin) :
    (l.map Plugin.Name).Nodup ↔ ∀ n : String, List.countP (fun q => decide (q.Name = n)) l ≤ 1 := by
  rw [List.nodup_iff_count_le_one]
  constructor
  · intro h n
    have := h n
    rw [List.count, List.countP_map] at this
    have e : ((fun x => x == n) ∘ Plugin.Name) = (fun q : Plugin => decide (q.Name = n)) := by
      funext q
      show (q.Name == n) = decide (q.Name = n)
      by_cases hq : q.Name = n <;> simp [hq]
    rw [e] at this
    exact this
  · intro h n
    rw [List.count, List.countP_map]
    have e : ((fun x => x == n) ∘ Plugin.Name) = (fun q : Plugin => decide (q.Name = n)) := by
      funext q
      show (q.Name == n) = decide (q.Name = n)
      by_cases hq : q.Name = n <;> simp [hq]
    rw [e]
    exact h n

/-! ## The merged catalog: C1, C2, C9 -/

theorem GetInstalledPlugins_perm (br : UserBroker) (category : Category)
    (hns : br.Namespace ≠ "") :
    (br.GetInstalledPlugins category).Perm
      ((overrideLoop (br.Hub.ListPlugins "" category)
          (br.Hub.ListPlugins br.Namespace category)).1 ++
       (overrideLoop (br.Hub.ListPlugins "" category)
          (br.Hub.ListPlugins br.Namespace category)).2) := by
  unfold UserBroker.GetInstalledPlugins
  simp only [hns, ne_eq, not_false_eq_true, if_true]
  rw [← mergePlugins_eq]
  exact sortSort_perm _ _

/-- C1, counterexample: both catalogs have unique (name, version) pairs, the
name `php` occurs in both, and the merged list still holds the system entry
`php` 7.0, which is no entry of the caller's catalog. -/
theorem GetInstalledPlugins_system_entry_survives :
    twoVersionsBroker.Namespace ≠ "" ∧
    ((twoVersionsBroker.Hub.ListPlugins "" Category.Framework).map
        (fun q => (q.Name, q.Version))).Nodup ∧
    ((twoVersionsBroker.Hub.ListPlugins twoVersionsBroker.Namespace Category.Framework).map
        (fun q => (q.Name, q.Version))).Nodup ∧
    (∃ q ∈ twoVersionsBroker.Hub.ListPlugins "" Category.Framework, q.Name = "php") ∧
    (∃ q ∈ twoVersionsBroker.Hub.ListPlugins twoVersionsBroker.Namespace Category.Framework,
        q.Name = "php") ∧
    twoVersionsBroker.GetInstalledPlugins Category.Framework = [phpDemo, phpNew] ∧
    ¬ (∀ q ∈ twoVersionsBroker.GetInstalledPlugins Category.Framework, q.Name = "php" →
        q ∈ twoVersionsBroker.Hub.ListPlugins twoVersionsBroker.Namespace Category.Framework) := by
  decide

/-- C1 (amended): for a caller with a non-empty namespace and every plugin name
that the system catalog lists no more often than the caller's catalog does (so
every name that occurs in both and once in the system catalog), the entries of
that name in the result of `GetInstalledPlugins` are exactly the caller's
entries of that name: every such entry is an entry of the caller's catalog. -/
theorem GetInstalledPlugins_caller_shadows (br : UserBroker) (category : Category) (n : String)
    (hns : br.Namespace ≠ "")
    (hle : List.countP (fun q => decide (q.Name = n)) (br.Hub.ListPlugins "" category) ≤
      List.countP (fun q => decide (q.Name = n)) (br.Hub.ListPlugins br.Namespace category)) :
    ((br.GetInstalledPlugins category).filter (fun q => decide (q.Name = n))).Perm
      ((br.Hub.ListPlugins br.Namespace category).filter (fun q => decide (q.Name = n))) ∧
    ∀ q ∈ br.GetInstalledPlugins category, q.Name = n →
      q ∈ br.Hub.ListPlugins br.Namespace category := by
  have hperm : ((br.GetInstalledPlugins category).filter (fun q => decide (q.Name = n))).Perm
      ((br.Hub.ListPlugins br.Namespace category).filter (fun q => decide (q.Name = n))) :=
    ((GetInstalledPlugins_perm br category hns).filter _).trans
      (overrideLoop_filter_perm n _ _ hle)
  refine ⟨hperm, ?_⟩
  intro q hq hname
  have hmem : q ∈ (br.GetInstalledPlugins category).filter (fun q => decide (q.Name = n)) :=
    List.mem_filter.mpr ⟨hq, by simpa using hname⟩
  exact (List.mem_filter.mp (hperm.mem_iff.mp hmem)).1

/-- C1 (amended), witness: the tenant `demo` with one system `php`. -/
theorem GetInstalledPlugins_caller_shadows_witness :
    oneVersionBroker.GetInstalledPlugins Category.Framework = [goSys, phpDemo] ∧
    ∀ q ∈ oneVersionBroker.GetInstalledPlugins Category.Framework, q.Name = "php" →
      q ∈ oneVersionBroker.Hub.ListPlugins oneVersionBroker.Namespace Category.Framework :=
  ⟨by decide,
   (GetInstalledPlugins_caller_shadows oneVersionBroker Category.Framework "php"
      (by decide) (by decide)).2⟩

/-- C2, counterexample: both catalogs have unique (name, version) pairs and the
merged list holds two entries named `php`. -/
theorem GetInstalledPlugins_duplicate_name :
    ((twoVersionsBroker.Hub.ListPlugins "" Category.Framework).map
        (fun q => (q.Name, q.Version))).Nodup ∧
    ((twoVersionsBroker.Hub.ListPlugins twoVersionsBroker.Namespace Category.Framework).map
        (fun q => (q.Name, q.Version))).Nodup ∧
    (twoVersionsBroker.GetInstalledPlugins Category.Framework).map Plugin.Name = ["php", "php"] ∧
    ¬ ((twoVersionsBroker.GetInstalledPlugins Category.Framework).map Plugin.Name).Nodup := by
  decide

/-- C2 (amended): the list returned by `GetInstalledPlugins` contains no two
entries with the same Name exactly when the system catalog lists every name
once and, for a caller with a namespace, the caller's catalog lists every name
once. -/
theorem GetInstalledPlugins_names_nodup_iff (br : UserBroker) (category : Category) :
    ((br.GetInstalledPlugins category).map Plugin.Name).Nodup ↔
      ((br.Hub.ListPlugins "" category).map Plugin.Name).Nodup ∧
      (br.Namespace ≠ "" → ((br.Hub.ListPlugins br.Namespace category).map Plugin.Name).Nodup) := by
  by_cases hns : br.Namespace = ""
  · have hperm : (br.GetInstalledPlugins category).Perm (br.Hub.ListPlugins "" category) := by
      unfold UserBroker.GetInstalledPlugins
      simp only [hns, ne_eq, not_true_eq_false, if_false]
      exact sortSort_perm _ _
    rw [(hperm.map Plugin.Name).nodup_iff]
    simp [hns]
  · have hperm := GetInstalledPlugins_perm br category hns
    rw [(hperm.map Plugin.Name).nodup_iff, nodup_names_iff, nodup_names_iff, nodup_names_iff]
    simp only [ne_eq, hns, not_false_eq_true, true_implies]
    constructor
    · intro h
      refine ⟨fun n => ?_, fun n => ?_⟩ <;>
      · have := h n
        rw [overrideLoop_countP] at this
        omega
    · intro h n
      rw [overrideLoop_countP]
      have h1 := h.1 n
      have h2 := h.2 n
      omega

/-- C9: the list returned by `GetInstalledPlugins`, and the list returned by
`GetUserPlugins`, is in ascending DisplayName order under byte-wise string
comparison: for all positions i < j the DisplayName at i is less than or equal
to the DisplayName at j.  Each list is a rearrangement of what the method
sorts: the merged catalog (the system catalog alone for a caller without a
namespace), and the caller's catalog (nothing for a caller without a
namespace). -/
theorem plugin_lists_ascending (br : UserBroker) (category : Category) :
    (∀ (i j : Nat) (hij : i < j) (hj : j < (br.GetInstalledPlugins category).length),
      stringLe ((br.GetInstalledPlugins category)[i]).DisplayName
        ((br.GetInstalledPlugins category)[j]).DisplayName) ∧
    (∀ (i j : Nat) (hij : i < j) (hj : j < (br.GetUserPlugins category).length),
      stringLe ((br.GetUserPlugins category)[i]).DisplayName
        ((br.GetUserPlugins category)[j]).DisplayName) ∧
    (br.GetInstalledPlugins category).Perm
      (if br.Namespace ≠ "" then
        mergePlugins (br.Hub.ListPlugins "" category) (br.Hub.ListPlugins br.Namespace category)
      else br.Hub.ListPlugins "" category) ∧
    (br.GetUserPlugins category).Perm
      (if br.Namespace ≠ "" then br.Hub.ListPlugins br.Namespace category else []) := by
  refine ⟨?_, ?_, ?_, ?_⟩
  · intro i j hij hj
    have h : (br.GetInstalledPlugins category).Pairwise
        (fun a b => stringLe a.DisplayName b.DisplayName) := by
      unfold UserBroker.GetInstalledPlugins
      exact sortSort_byDisplayName_pairwise _
    exact List.pairwise_iff_getElem.mp h i j (by omega) hj hij
  · intro i j hij hj
    have h : (br.GetUserPlugins category).Pairwise
        (fun a b => stringLe a.DisplayName b.DisplayName) := by
      unfold UserBroker.GetUserPlugins
      split
      · exact sortSort_byDisplayName_pairwise _
      · exact List.Pairwise.nil
    exact List.pairwise_iff_getElem.mp h i j (by omega) hj hij
  · unfold UserBroker.GetInstalledPlugins
    exact sortSort_perm _ _
  · unfold UserBroker.GetUserPlugins
    split
    · exact sortSort_perm _ _
    · exact List.Perm.refl _

/-- C9, witness: the tenant `demo` lists its plugins `My PHP`, `Express` in that
order; `GetUserPlugins` returns `Express`, `My PHP`, and `GetInstalledPlugins`
returns `Express`, `Go`, `My PHP`; both are ascending at every pair of
positions. -/
theorem plugin_lists_ascending_witness :
    (twoPluginsBroker.Hub.ListPlugins twoPluginsBroker.Namespace Category.Framework).map
      Plugin.DisplayName = ["My PHP", "Express"] ∧
    twoPluginsBroker.GetUserPlugins Category.Framework = [nodeDemo, phpDemo] ∧
    (twoPluginsBroker.GetUserPlugins Category.Framework).map Plugin.DisplayName
      = ["Express", "My PHP"] ∧
    (twoPluginsBroker.GetInstalledPlugins Category.Framework).map Plugin.DisplayName
      = ["Express", "Go", "My PHP"] ∧
    stringLe "Express" "Go" ∧ stringLe "Go" "My PHP" ∧ ¬ stringLe "My PHP" "Express" ∧
    (∀ (i j : Nat) (hij : i < j)
        (hj : j < (twoPluginsBroker.GetInstalledPlugins Category.Framework).length),
      stringLe ((twoPluginsBroker.GetInstalledPlugins Category.Framework)[i]).DisplayName
        ((twoPluginsBroker.GetInstalledPlugins Category.Framework)[j]).DisplayName) ∧
    (∀ (i j : Nat) (hij : i < j)
        (hj : j < (twoPluginsBroker.GetUserPlugins Category.Framework).length),
      stringLe ((twoPluginsBroker.GetUserPlugins Category.Framework)[i]).DisplayName
        ((twoPluginsBroker.GetUserPlugins Category.Framework)[j]).DisplayName) ∧
    (twoPluginsBroker.GetUserPlugins Category.Framework).Perm
      (twoPluginsBroker.Hub.ListPlugins twoPluginsBroker.Namespace Category.Framework) :=
  ⟨by decide, by decide, by decide, by decide, by decide, by decide, by decide,
   (plugin_lists_ascending twoPluginsBroker Category.Framework).1,
   (plugin_lists_ascending twoPluginsBroker Category.Framework).2.1,
   (plugin_lists_ascending twoPluginsBroker Category.Framework).2.2.2⟩

/-! ## Splitting and joining: lemmas -/

theorem splitN2_absent (sep : Char) :
    ∀ w : List Char, sep ∉ w → splitN2 sep w = (w, none)
  | [], _ => rfl
  | c :: cs, h => by
    have hc : c ≠ sep := fun e => h (by simp [e])
    have hcs : sep ∉ cs := fun e => h (List.mem_cons_of_mem _ e)
    simp [splitN2, hc, splitN2_absent sep cs hcs]

theorem splitN2_first (sep : Char) (b : List Char) :
    ∀ a : List Char, sep ∉ a → splitN2 sep (a ++ sep :: b) = (a, some b)
  | [], _ => by simp [splitN2]
  | c :: cs, h => by
    have hc : c ≠ sep := fun e => h (by simp [e])
    have hcs : sep ∉ cs := fun e => h (List.mem_cons_of_mem _ e)
    simp [splitN2, hc, splitN2_first sep b cs hcs]

theorem splitSlash_ne_nil : ∀ w : List Char, splitSlash w ≠ []
  | [] => by simp [splitSlash]
  | c :: cs => by
    unfold splitSlash
    split
    · simp
    · split <;> simp

theorem splitSlash_absent : ∀ w : List Char, '/' ∉ w → splitSlash w = [w]
  | [], _ => rfl
  | c :: cs, h => by
    have hc : c ≠ '/' := fun e => h (by simp [e])
    have hcs : '/' ∉ cs := fun e => h (List.mem_cons_of_mem _ e)
    simp [splitSlash, hc, splitSlash_absent cs hcs]

theorem splitSlash_append (b : List Char) :
    ∀ a : List Char, splitSlash (a ++ '/' :: b) = splitSlash a ++ splitSlash b
  | [] => by simp [splitSlash]
  | c :: cs => by
    have ih := splitSlash_append b cs
    by_cases hc : c = '/'
    · simp [splitSlash, hc, ih]
    · obtain ⟨w, ws, hw⟩ : ∃ w ws, splitSlash cs = w :: ws := by
        cases h : splitSlash cs with
        | nil => exact absurd h (splitSlash_ne_nil cs)
        | cons w ws => exact ⟨w, ws, rfl⟩
      simp [splitSlash, hc, ih, hw]

theorem joinSlash_snoc (w : List Char) :
    ∀ r : List (List Char), r ≠ [] → joinSlash (r ++ [w]) = joinSlash r ++ '/' :: w
  | [], h => absurd rfl h
  | [v], _ => by simp [joinSlash]
  | v :: v' :: r, _ => by
    have ih := joinSlash_snoc w (v' :: r) (by simp)
    simp only [List.cons_append] at ih ⊢
    simp [joinSlash, ih]

/-! ## Tag round trip: C6 -/

/-- C6: for every namespace (possibly empty), non-empty name and version
(possibly empty) such that none of them contains `/` and neither namespace nor
name contains `:`, the clean tag built by `getPluginInfoWithNames` is split by
`GetPluginPath` back into the same namespace, name and version. -/
theorem splitTag_cleanTag (nspace name version : String)
    (hn : '/' ∉ nspace.data) (hm : '/' ∉ name.data) (hv : '/' ∉ version.data)
    (_hnc : ':' ∉ nspace.data) (hmc : ':' ∉ name.data) (_hname : name ≠ "") :
    splitTag (cleanTag nspace name version) = (nspace, name, version) := by
  by_cases hns : nspace = "" <;> by_cases hvs : version = ""
  · subst hns
    subst hvs
    have e : cleanTag "" name "" = name := by simp [cleanTag]
    rw [e]
    simp [splitTag, splitN2_absent '/' _ hm, splitN2_absent ':' _ hmc]
  · subst hns
    have e : (cleanTag "" name version).data = name.data ++ ':' :: version.data := by
      simp [cleanTag, hvs, String.data_append]
    have hs : '/' ∉ name.data ++ ':' :: version.data := by
      simp only [List.mem_append, List.mem_cons, not_or]
      exact ⟨hm, by decide, hv⟩
    simp [splitTag, e, splitN2_absent '/' _ hs, splitN2_first ':' _ _ hmc]
  · subst hvs
    have e : (cleanTag nspace name "").data = nspace.data ++ '/' :: name.data := by
      simp [cleanTag, hns, String.data_append]
    simp [splitTag, e, splitN2_first '/' _ _ hn, splitN2_absent ':' _ hmc]
  · have e : (cleanTag nspace name version).data
        = nspace.data ++ '/' :: (name.data ++ ':' :: version.data) := by
      simp [cleanTag, hns, hvs, String.data_append]
    simp [splitTag, e, splitN2_first '/' _ _ hn, splitN2_first ':' _ _ hmc]

/-- C6, witness: the tag `demo/php:7.1`. -/
theorem splitTag_cleanTag_witness :
    cleanTag "demo" "php" "7.1" = "demo/php:7.1" ∧
    splitTag (cleanTag "demo" "php" "7.1") = ("demo", "php", "7.1") :=
  ⟨by decide, splitTag_cleanTag "demo" "php" "7.1" (by decide) (by decide) (by decide)
    (by decide) (by decide) (by decide)⟩

/-! ## Base directories: C5 -/

theorem cleanChars_join3 (d n m : List Char) (hd : d ≠ []) (hn : '/' ∉ n) (hm : '/' ∉ m) :
    cleanChars (d ++ '/' :: (n ++ '/' :: m)) =
      (if (if decide (d.head? = some '/') then ['/'] else []) ++
            joinSlash (List.foldl (cleanStep (decide (d.head? = some '/')))
              (List.foldl (cleanStep (decide (d.head? = some '/'))) [] (splitSlash d))
              [n, m]).reverse = []
        then ['.']
        else (if decide (d.head? = some '/') then ['/'] else []) ++
            joinSlash (List.foldl (cleanStep (decide (d.head? = some '/')))
              (List.foldl (cleanStep (decide (d.head? = some '/'))) [] (splitSlash d))
              [n, m]).reverse) := by
  have hhead : (d ++ '/' :: (n ++ '/' :: m)).head? = d.head? := by
    cases d with
    | nil => exact absurd rfl hd
    | cons c cs => rfl
  have hsplit : splitSlash (d ++ '/' :: (n ++ '/' :: m)) = splitSlash d ++ [n, m] := by
    rw [splitSlash_append, splitSlash_append, splitSlash_absent n hn, splitSlash_absent m hm]
    rfl
  unfold cleanChars
  simp only [hhead, hsplit, List.foldl_append]

theorem cleanChars_join2 (n m : List Char) (hn0 : n ≠ []) (hn : '/' ∉ n) (hm : '/' ∉ m) :
    cleanChars (n ++ '/' :: m) =
      (if ([] : List Char) ++ joinSlash (List.foldl (cleanStep false) [] [n, m]).reverse = []
        then ['.']
        else ([] : List Char) ++ joinSlash (List.foldl (cleanStep false) [] [n, m]).reverse) := by
  have hhead : decide ((n ++ '/' :: m).head? = some '/') = false := by
    cases n with
    | nil => exact absurd rfl hn0
    | cons c cs =>
      have hc : c ≠ '/' := fun e => hn (by simp [e])
      simp [hc]
  have hsplit : splitSlash (n ++ '/' :: m) = [n, m] := by
    rw [splitSlash_append, splitSlash_absent n hn, splitSlash_absent m hm]
    rfl
  unfold cleanChars
  simp only [hhead, hsplit]
  rfl

theorem splitSlash_slash_free : ∀ (w : List Char), ∀ x ∈ splitSlash w, '/' ∉ x
  | [] => by
    intro x hx
    simp [splitSlash] at hx
    simp [hx]
  | c :: cs => by
    have ih := splitSlash_slash_free cs
    intro x hx
    by_cases hc : c = '/'
    · simp only [splitSlash, hc, if_true, List.mem_cons] at hx
      rcases hx with rfl | hx
      · simp
      · exact ih x hx
    · obtain ⟨w, ws, hw⟩ : ∃ w ws, splitSlash cs = w :: ws := by
        cases h : splitSlash cs with
        | nil => exact absurd h (splitSlash_ne_nil cs)
        | cons w ws => exact ⟨w, ws, rfl⟩
      simp only [splitSlash, hc, if_false, hw, List.mem_cons] at hx
      rcases hx with rfl | hx
      · have hwf : '/' ∉ w := ih w (by simp [hw])
        simp only [List.mem_cons, not_or]
        exact ⟨fun e => hc e.symm, hwf⟩
      · exact ih x (by simp [hw, hx])

theorem cleanStep_kept (rooted : Bool) (st : List (List Char)) (elem : List Char)
    (hst : ∀ x ∈ st, keptElement x) (helem : '/' ∉ elem) :
    ∀ x ∈ cleanStep rooted st elem, keptElement x := by
  have hdd : keptElement ['.', '.'] := ⟨by decide, by decide, by decide⟩
  unfold cleanStep
  split
  · exact hst
  · rename_i hdrop
    split
    · rename_i hdots
      split
      · rename_i top below
        split
        · intro x hx
          rcases List.mem_cons.mp hx with rfl | hx
          · rw [hdots]
            exact hdd
          · exact hst x hx
        · intro x hx
          exact hst x (List.mem_cons_of_mem _ hx)
      · split
        · intro x hx
          simp at hx
        · intro x hx
          simp only [List.mem_singleton] at hx
          rw [hx, hdots]
          exact hdd
    · intro x hx
      rcases List.mem_cons.mp hx with rfl | hx
      · exact ⟨fun e => hdrop (Or.inl e), fun e => hdrop (Or.inr e), helem⟩
      · exact hst x hx

theorem foldl_cleanStep_kept (rooted : Bool) :
    ∀ (elems : List (List Char)) (st : List (List Char)),
      (∀ x ∈ st, keptElement x) → (∀ e ∈ elems, '/' ∉ e) →
      ∀ x ∈ List.foldl (cleanStep rooted) st elems, keptElement x
  | [], st, hst, _ => hst
  | e :: es, st, hst, hes => by
    simp only [List.foldl_cons]
    exact foldl_cleanStep_kept rooted es _
      (cleanStep_kept rooted st e hst (hes e (List.mem_cons_self _ _)))
      (fun e' he' => hes e' (List.mem_cons_of_mem _ he'))

theorem splitSlash_joinSlash :
    ∀ l : List (List Char), l ≠ [] → (∀ x ∈ l, '/' ∉ x) → splitSlash (joinSlash l) = l
  | [], h, _ => absurd rfl h
  | [w], _, hl => by
    simp only [joinSlash]
    exact splitSlash_absent w (hl w (List.mem_cons_self _ _))
  | w :: w2 :: ws, _, hl => by
    have ih := splitSlash_joinSlash (w2 :: ws) (by simp)
      (fun x hx => hl x (List.mem_cons_of_mem _ hx))
    simp only [joinSlash] at ih ⊢
    rw [splitSlash_append, ih, splitSlash_absent w (hl w (List.mem_cons_self _ _))]
    rfl

theorem joinSlash_eq_nil (l : List (List Char)) (hl : ∀ x ∈ l, x ≠ [])
    (h : joinSlash l = []) : l = [] := by
  cases l with
  | nil => rfl
  | cons x xs =>
    have hx := hl x (List.mem_cons_self _ _)
    cases xs with
    | nil =>
      simp only [joinSlash] at h
      exact absurd h hx
    | cons y ys =>
      simp only [joinSlash] at h
      have := List.append_eq_nil.mp h
      exact absurd this.1 hx

theorem joinSlash_injective (l1 l2 : List (List Char))
    (h1 : ∀ x ∈ l1, keptElement x) (h2 : ∀ x ∈ l2, keptElement x)
    (h : joinSlash l1 = joinSlash l2) : l1 = l2 := by
  by_cases e1 : l1 = []
  · subst e1
    have : joinSlash l2 = [] := by rw [← h]; rfl
    exact (joinSlash_eq_nil l2 (fun x hx => (h2 x hx).1) this).symm
  · by_cases e2 : l2 = []
    · subst e2
      have : joinSlash l1 = [] := by rw [h]; rfl
      exact absurd (joinSlash_eq_nil l1 (fun x hx => (h1 x hx).1) this) e1
    · rw [← splitSlash_joinSlash l1 e1 (fun x hx => (h1 x hx).2.2),
        ← splitSlash_joinSlash l2 e2 (fun x hx => (h2 x hx).2.2), h]

theorem cleanOut_injective (lead : List Char) (hlead : lead = [] ∨ lead = ['/'])
    (s1 s2 : List (List Char))
    (h1 : ∀ x ∈ s1, keptElement x) (h2 : ∀ x ∈ s2, keptElement x)
    (h : (if lead ++ joinSlash s1.reverse = [] then ['.'] else lead ++ joinSlash s1.reverse) =
      (if lead ++ joinSlash s2.reverse = [] then ['.'] else lead ++ joinSlash s2.reverse)) :
    s1 = s2 := by
  have k1 : ∀ x ∈ s1.reverse, keptElement x := fun x hx => h1 x (List.mem_reverse.mp hx)
  have k2 : ∀ x ∈ s2.reverse, keptElement x := fun x hx => h2 x (List.mem_reverse.mp hx)
  have fin : joinSlash s1.reverse = joinSlash s2.reverse → s1 = s2 := by
    intro e
    exact List.reverse_injective (joinSlash_injective _ _ k1 k2 e)
  have nodot : ∀ s : List (List Char), (∀ x ∈ s, keptElement x) → joinSlash s ≠ [] →
      joinSlash s ≠ ['.'] := by
    intro s hs hne e
    have hsne : s ≠ [] := by
      intro e0
      subst e0
      exact hne rfl
    have := splitSlash_joinSlash s hsne (fun x hx => (hs x hx).2.2)
    rw [e] at this
    have hmem : ['.'] ∈ s := by
      rw [← this]
      simp [splitSlash]
    exact (hs _ hmem).2.1 rfl
  rcases hlead with rfl | rfl
  · simp only [List.nil_append] at h
    by_cases e1 : joinSlash s1.reverse = []
    · by_cases e2 : joinSlash s2.reverse = []
      · exact fin (e1.trans e2.symm)
      · rw [if_pos e1, if_neg e2] at h
        exact absurd h.symm (nodot _ k2 e2)
    · by_cases e2 : joinSlash s2.reverse = []
      · rw [if_neg e1, if_pos e2] at h
        exact absurd h (nodot _ k1 e1)
      · rw [if_neg e1, if_neg e2] at h
        exact fin h
  · rw [if_neg (by simp), if_neg (by simp)] at h
    exact fin (List.append_cancel_left h)

theorem cleanStep_name_injective (rooted : Bool) (s1 s2 : List (List Char)) (name : List Char)
    (hname : name ≠ ['.', '.'])
    (h : cleanStep rooted s1 name = cleanStep rooted s2 name) : s1 = s2 := by
  unfold cleanStep at h
  by_cases hdrop : name = [] ∨ name = ['.']
  · simpa [hdrop] using h
  · simp only [hdrop, hname, if_false] at h
    exact (List.cons.inj h).2

theorem cleanStep_ne_marker (rooted : Bool) (st : List (List Char)) (ns : List Char)
    (hns : ns ≠ []) (hmarker : ns ≠ (".cloudway" : String).data) :
    cleanStep rooted st ns ≠ (".cloudway" : String).data :: st := by
  have hlen : ∀ (a : List Char) (l : List (List Char)), l ≠ a :: l := by
    intro a l e
    have := congrArg List.length e
    simp at this
  unfold cleanStep
  by_cases hdot : ns = ['.']
  · simp only [hdot, or_true, if_true]
    exact hlen _ _
  · simp only [hns, hdot, or_self, if_false]
    by_cases hdd : ns = ['.', '.']
    · simp only [hdd, if_true]
      cases st with
      | nil =>
        cases rooted with
        | true => simp
        | false =>
          simp only [Bool.false_eq_true, if_false]
          intro e
          exact absurd (List.cons.inj e).1 (by decide)
      | cons top below =>
        by_cases htop : top = ['.', '.']
        · simp only [htop, if_true]
          intro e
          exact absurd (List.cons.inj e).1 (by decide)
        · simp only [htop, if_false]
          intro e
          have := congrArg List.length e
          simp only [List.length_cons] at this
          omega
    · simp only [hdd, if_false]
      intro e
      exact hmarker (List.cons.inj e).1

/-- C5, counterexample: the tenant namespace `.cloudway` is non-empty and its
plugin `php` gets the directory of the system plugin `php`. -/
theorem getBaseDir_marker_collides :
    (".cloudway" : String) ≠ "" ∧
    (catalogHub [] []).getBaseDir ".cloudway" "php" = "/var/lib/cloudway/plugins/.cloudway/php" ∧
    (catalogHub [] []).getBaseDir "" "php" = "/var/lib/cloudway/plugins/.cloudway/php" ∧
    ¬ ((catalogHub [] []).getBaseDir ".cloudway" "php" ≠ (catalogHub [] []).getBaseDir "" "php") := by
  decide

/-- C5 (amended): for every non-empty tenant namespace without `/` other than
the reserved marker `.cloudway`, and every plugin name without `/` other than
`..`, the Hub directory of the tenant plugin differs from the directory of the
system plugin of the same name. -/
theorem getBaseDir_tenant_ne_system (hub : PluginHub) (nspace name : String)
    (hns : nspace ≠ "") (hslash : '/' ∉ nspace.data) (hmarker : nspace ≠ ".cloudway")
    (hname : '/' ∉ name.data) (hnamedd : name ≠ "..") :
    hub.getBaseDir nspace name ≠ hub.getBaseDir "" name := by
  have hdata : ∀ s t : String, s ≠ t → s.data ≠ t.data := fun s t h e => h (String.ext e)
  have ha : nspace.data ≠ [] := hdata _ _ hns
  have hb : (".cloudway" : String).data ≠ [] := by decide
  have hab : nspace.data ≠ (".cloudway" : String).data := hdata _ _ hmarker
  have hnm : name.data ≠ ['.', '.'] := hdata _ _ hnamedd
  have hmslash : '/' ∉ (".cloudway" : String).data := by decide
  have hmstep : ∀ (rooted : Bool) (st : List (List Char)),
      cleanStep rooted st (".cloudway" : String).data = (".cloudway" : String).data :: st := by
    intro rooted st
    have h1 : (".cloudway" : String).data ≠ ['.'] := by decide
    have h2 : (".cloudway" : String).data ≠ ['.', '.'] := by decide
    simp [cleanStep, hb, h1, h2]
  have core : ∀ (rooted : Bool) (lead : List Char) (st : List (List Char)),
      (lead = [] ∨ lead = ['/']) → (∀ x ∈ st, keptElement x) →
      (if lead ++ joinSlash (List.foldl (cleanStep rooted) st [nspace.data, name.data]).reverse
          = [] then ['.']
        else lead ++
          joinSlash (List.foldl (cleanStep rooted) st [nspace.data, name.data]).reverse) ≠
      (if lead ++ joinSlash (List.foldl (cleanStep rooted) st
          [(".cloudway" : String).data, name.data]).reverse = [] then ['.']
        else lead ++ joinSlash (List.foldl (cleanStep rooted) st
          [(".cloudway" : String).data, name.data]).reverse) := by
    intro rooted lead st hlead hst h
    have k1 := foldl_cleanStep_kept rooted [nspace.data, name.data] st hst (by
      intro e he
      simp only [List.mem_cons, List.mem_singleton, List.not_mem_nil, or_false] at he
      rcases he with rfl | rfl
      · exact hslash
      · exact hname)
    have k2 := foldl_cleanStep_kept rooted [(".cloudway" : String).data, name.data] st hst (by
      intro e he
      simp only [List.mem_cons, List.mem_singleton, List.not_mem_nil, or_false] at he
      rcases he with rfl | rfl
      · exact hmslash
      · exact hname)
    have heq := cleanOut_injective lead hlead _ _ k1 k2 h
    simp only [List.foldl_cons, List.foldl_nil] at heq
    have hstep := cleanStep_name_injective rooted _ _ name.data hnm heq
    rw [hmstep] at hstep
    exact cleanStep_ne_marker rooted st nspace.data ha hab hstep
  unfold PluginHub.getBaseDir
  rw [if_neg hns, if_pos rfl]
  by_cases hdir : hub.installDir = ""
  · have e1 : filepath.Join [hub.installDir, nspace, name]
        = String.mk (cleanChars (nspace.data ++ '/' :: name.data)) := by
      simp [filepath.Join, filepath.Clean, hdir, hns, joinSlash]
    have e2 : filepath.Join [hub.installDir, ".cloudway", name]
        = String.mk (cleanChars ((".cloudway" : String).data ++ '/' :: name.data)) := by
      simp [filepath.Join, filepath.Clean, hdir, joinSlash]
    rw [e1, e2, cleanChars_join2 _ _ ha hslash hname, cleanChars_join2 _ _ hb hmslash hname]
    intro h
    exact core false [] [] (Or.inl rfl) (by intro x hx; simp at hx) (congrArg String.data h)
  · have hd : hub.installDir.data ≠ [] := hdata _ _ hdir
    have e1 : filepath.Join [hub.installDir, nspace, name]
        = String.mk (cleanChars
            (hub.installDir.data ++ '/' :: (nspace.data ++ '/' :: name.data))) := by
      simp [filepath.Join, filepath.Clean, hdir, joinSlash]
    have e2 : filepath.Join [hub.installDir, ".cloudway", name]
        = String.mk (cleanChars
            (hub.installDir.data ++ '/' :: ((".cloudway" : String).data ++ '/' :: name.data))) := by
      simp [filepath.Join, filepath.Clean, hdir, joinSlash]
    rw [e1, e2, cleanChars_join3 _ _ _ hd hslash hname, cleanChars_join3 _ _ _ hd hmslash hname]
    intro h
    refine core _ _ _ ?_ ?_ (congrArg String.data h)
    · by_cases hr : decide (hub.installDir.data.head? = some '/') = true
      · exact Or.inr (by simp [hr])
      · exact Or.inl (by simp [hr])
    · exact foldl_cleanStep_kept _ _ [] (by intro x hx; simp at hx)
        (splitSlash_slash_free hub.installDir.data)

/-- C5 (amended), witness: the tenants `demo`, `.` and `..` and the plugin
`php`; none of their directories is the system directory of `php`. -/
theorem getBaseDir_tenant_ne_system_witness :
    (catalogHub [] []).getBaseDir "demo" "php" = "/var/lib/cloudway/plugins/demo/php" ∧
    (catalogHub [] []).getBaseDir "." "php" = "/var/lib/cloudway/plugins/php" ∧
    (catalogHub [] []).getBaseDir ".." "php" = "/var/lib/cloudway/php" ∧
    (catalogHub [] []).getBaseDir "" "php" = "/var/lib/cloudway/plugins/.cloudway/php" ∧
    (catalogHub [] []).getBaseDir "demo" "php" ≠ (catalogHub [] []).getBaseDir "" "php" ∧
    (catalogHub [] []).getBaseDir ".." "php" ≠ (catalogHub [] []).getBaseDir "" "php" :=
  ⟨by decide, by decide, by decide, by decide,
   getBaseDir_tenant_ne_system (catalogHub [] []) "demo" "php"
    (by decide) (by decide) (by decide) (by decide) (by decide),
   getBaseDir_tenant_ne_system (catalogHub [] []) ".." "php"
    (by decide) (by decide) (by decide) (by decide) (by decide)⟩

/-! ## Version lookup: C7 -/

/-- C7, counterexample: the versions of `locked/foo` cannot be listed for a
reason other than absence; `GetPluginPath` returns that error, which is neither
the plugin-not-found error, nor the version-not-found error, nor a path. -/
theorem GetPluginPath_other_error :
    diskHub.GetPluginPath "locked/foo" = ("", some (Error.os false "permission denied")) ∧
    ¬ ((diskHub.GetPluginPath "locked/foo").2 = some (Error.errorf "Plugin not found: foo") ∨
       (diskHub.GetPluginPath "locked/foo").2 = some (Error.errorf "Version not found: ") ∨
       (diskHub.GetPluginPath "locked/foo").2 = none) := by
  decide

/-- C7 (amended): for every tag, split into namespace, name and version, with
`base` the base directory of (namespace, name): when listing the versions of
`base` fails because `base` does not exist, `GetPluginPath` fails with the
plugin-not-found error naming the name; when the listing fails for another
reason it fails with that error unchanged; when the listing succeeds and no
listed version matches the requested one it fails with the version-not-found
error naming the version; otherwise it returns `base` joined with the matched
version and no error.  It never returns a path together with an error. -/
theorem GetPluginPath_outcomes (hub : PluginHub) (tag : String) :
    (∀ e, hub.getAllVersions (hub.getBaseDir (splitTag tag).1 (splitTag tag).2.1) = Except.error e →
      os.IsNotExist e = true →
      hub.GetPluginPath tag =
        ("", some (Error.errorf ("Plugin not found: " ++ (splitTag tag).2.1)))) ∧
    (∀ e, hub.getAllVersions (hub.getBaseDir (splitTag tag).1 (splitTag tag).2.1) = Except.error e →
      os.IsNotExist e = false →
      hub.GetPluginPath tag = ("", some e)) ∧
    (∀ vs, hub.getAllVersions (hub.getBaseDir (splitTag tag).1 (splitTag tag).2.1) = Except.ok vs →
      hub.matchVersion vs (splitTag tag).2.2 = "" →
      hub.GetPluginPath tag =
        ("", some (Error.errorf ("Version not found: " ++ (splitTag tag).2.2)))) ∧
    (∀ vs, hub.getAllVersions (hub.getBaseDir (splitTag tag).1 (splitTag tag).2.1) = Except.ok vs →
      hub.matchVersion vs (splitTag tag).2.2 ≠ "" →
      hub.GetPluginPath tag =
        (filepath.Join [hub.getBaseDir (splitTag tag).1 (splitTag tag).2.1,
          hub.matchVersion vs (splitTag tag).2.2], none)) ∧
    ((hub.GetPluginPath tag).2 ≠ none → (hub.GetPluginPath tag).1 = "") := by
  refine ⟨?_, ?_, ?_, ?_, ?_⟩
  · intro e he hne
    simp [PluginHub.GetPluginPath, he, hne]
  · intro e he hne
    simp [PluginHub.GetPluginPath, he, hne]
  · intro vs hvs hm
    simp [PluginHub.GetPluginPath, hvs, hm]
  · intro vs hvs hm
    simp [PluginHub.GetPluginPath, hvs, hm]
  · simp only [PluginHub.GetPluginPath]
    cases hub.getAllVersions (hub.getBaseDir (splitTag tag).1 (splitTag tag).2.1) with
    | error e => by_cases h : os.IsNotExist e = true <;> simp [h]
    | ok vs => by_cases h : hub.matchVersion vs (splitTag tag).2.2 = "" <;> simp [h]

/-- C7 (amended), witness: on the sample disk `nothing/here` is not found,
`locked/foo` gives the listing error, `other/foo:2.0` has no such version and
`other/foo:1.0` resolves to its directory. -/
theorem GetPluginPath_outcomes_witness :
    diskHub.GetPluginPath "nothing/here" = ("", some (Error.errorf "Plugin not found: here")) ∧
    diskHub.GetPluginPath "locked/foo" = ("", some (Error.os false "permission denied")) ∧
    diskHub.GetPluginPath "other/foo:2.0" = ("", some (Error.errorf "Version not found: 2.0")) ∧
    diskHub.GetPluginPath "other/foo:1.0" = ("/hub/other/foo/1.0", none) ∧
    ((diskHub.GetPluginPath "other/foo:2.0").2 ≠ none →
      (diskHub.GetPluginPath "other/foo:2.0").1 = "") :=
  ⟨by decide, by decide, by decide, by decide,
   (GetPluginPath_outcomes diskHub "other/foo:2.0").2.2.2.2⟩

/-! ## Single tag resolution: C3, C4 -/

theorem PluginHub.GetPluginInfo_shape (hub : PluginHub) (tag : String) :
    (∃ p, hub.GetPluginInfo tag = (some p, none)) ∨ (∃ e, hub.GetPluginInfo tag = (none, some e)) := by
  unfold PluginHub.GetPluginInfo
  split
  · exact Or.inr ⟨_, rfl⟩
  · split
    · exact Or.inl ⟨_, rfl⟩
    · exact Or.inr ⟨_, rfl⟩

/-- C3, counterexample: the tenant `demo` asks for `other/foo:2.0`; the tenant
`other` has the non-shared `foo` in version 1.0 only, and the error returned is
the Hub's version-not-found error, not a plugin-not-found error. -/
theorem GetPluginInfo_foreign_version_error :
    (demoBroker.Hub.ParseTag "other/foo:2.0").err = none ∧
    (demoBroker.Hub.ParseTag "other/foo:2.0").nspace = "other" ∧
    demoBroker.Namespace = "demo" ∧
    demoBroker.Hub.GetPluginInfo "other/foo:1.0" = (some fooOther, none) ∧
    fooOther.Shared = false ∧
    demoBroker.GetPluginInfo "other/foo:2.0"
      = (none, some (Error.errorf "Version not found: 2.0")) ∧
    (Error.errorf "Version not found: 2.0").isPluginNotFound = false := by
  decide

/-- C3 (amended): for every tag that parses with a non-empty explicit namespace
and every caller namespace, `GetPluginInfo` succeeds if and only if the Hub
lookup of namespace/name[:version] succeeds and the found plugin is Shared or
the tag's namespace equals the caller's namespace; a found plugin that is not
shared and belongs to a foreign namespace yields the error
`<clean tag>: plugin not found`; when the Hub lookup fails, the Hub's own error
(plugin not found, version not found or a read error) is returned unchanged. -/
theorem GetPluginInfo_explicit_namespace (br : UserBroker) (tag : String)
    (hparse : (br.Hub.ParseTag tag).err = none)
    (hns : (br.Hub.ParseTag tag).nspace ≠ "") :
    ((br.GetPluginInfo tag).2 = none ↔
      ∃ p, br.Hub.GetPluginInfo (cleanTag (br.Hub.ParseTag tag).nspace
            (br.Hub.ParseTag tag).name (br.Hub.ParseTag tag).version) = (some p, none) ∧
        (p.Shared = true ∨ (br.Hub.ParseTag tag).nspace = br.Namespace)) ∧
    (∀ p, br.Hub.GetPluginInfo (cleanTag (br.Hub.ParseTag tag).nspace
            (br.Hub.ParseTag tag).name (br.Hub.ParseTag tag).version) = (some p, none) →
      p.Shared = false → (br.Hub.ParseTag tag).nspace ≠ br.Namespace →
      (br.GetPluginInfo tag).2 = some (Error.errorf (cleanTag (br.Hub.ParseTag tag).nspace
            (br.Hub.ParseTag tag).name (br.Hub.ParseTag tag).version ++ ": plugin not found"))) ∧
    (∀ e, (br.Hub.GetPluginInfo (cleanTag (br.Hub.ParseTag tag).nspace
            (br.Hub.ParseTag tag).name (br.Hub.ParseTag tag).version)).2 = some e →
      (br.GetPluginInfo tag).2 = some e) := by
  unfold UserBroker.GetPluginInfo UserBroker.getPluginInfoWithNames
  simp only [hparse, hns, ne_eq, not_false_eq_true, if_true]
  rcases PluginHub.GetPluginInfo_shape br.Hub (cleanTag (br.Hub.ParseTag tag).nspace
    (br.Hub.ParseTag tag).name (br.Hub.ParseTag tag).version) with ⟨p, hp⟩ | ⟨e, he⟩
  · rw [hp]
    by_cases hsh : p.Shared = true
    · simp [hsh]
    · by_cases heq : (br.Hub.ParseTag tag).nspace = br.Namespace
      · simp [hsh, heq]
      · simp [hsh, heq]
  · rw [he]
    simp

/-- C3 (amended), witness: the tenant `demo` asks for the installed, non-shared
`other/foo:1.0` and for the shared `other/bar`. -/
theorem GetPluginInfo_explicit_namespace_witness :
    demoBroker.GetPluginInfo "other/bar" = (some barOther, none) ∧
    (demoBroker.GetPluginInfo "other/foo:1.0").2
      = some (Error.errorf "other/foo:1.0: plugin not found") :=
  ⟨by decide,
   (GetPluginInfo_explicit_namespace demoBroker "other/foo:1.0" (by decide) (by decide)).2.1
      fooOther (by decide) (by decide) (by decide)⟩

/-- C4: for every tag that parses with an empty namespace: if the caller has a
non-empty namespace ns and the Hub lookup of ns/name[:version] succeeds,
`GetPluginInfo` returns exactly that plugin; if that lookup fails, or the caller
has no namespace, the result (plugin and error) is exactly the result of the
Hub's system-scope lookup of name[:version]; so a caller without a namespace
never receives NoNamespaceError when the system plugin exists. -/
theorem GetPluginInfo_without_namespace (br : UserBroker) (tag : String)
    (hparse : (br.Hub.ParseTag tag).err = none)
    (hns : (br.Hub.ParseTag tag).nspace = "") :
    (br.Namespace ≠ "" →
      ∀ p, br.Hub.GetPluginInfo (br.Namespace ++ "/" ++
          (if (br.Hub.ParseTag tag).version = "" then (br.Hub.ParseTag tag).name
            else (br.Hub.ParseTag tag).name ++ ":" ++ (br.Hub.ParseTag tag).version))
          = (some p, none) →
        br.GetPluginInfo tag = (some p, none)) ∧
    ((br.Namespace = "" ∨
        (br.Hub.GetPluginInfo (br.Namespace ++ "/" ++
          (if (br.Hub.ParseTag tag).version = "" then (br.Hub.ParseTag tag).name
            else (br.Hub.ParseTag tag).name ++ ":" ++ (br.Hub.ParseTag tag).version))).2 ≠ none) →
      br.GetPluginInfo tag = br.Hub.GetPluginInfo
        (if (br.Hub.ParseTag tag).version = "" then (br.Hub.ParseTag tag).name
          else (br.Hub.ParseTag tag).name ++ ":" ++ (br.Hub.ParseTag tag).version)) ∧
    (br.Namespace = "" →
      (br.Hub.GetPluginInfo
        (if (br.Hub.ParseTag tag).version = "" then (br.Hub.ParseTag tag).name
          else (br.Hub.ParseTag tag).name ++ ":" ++ (br.Hub.ParseTag tag).version)).2 = none →
      (br.GetPluginInfo tag).2 = none) := by
  have hct : cleanTag "" (br.Hub.ParseTag tag).name (br.Hub.ParseTag tag).version =
      (if (br.Hub.ParseTag tag).version = "" then (br.Hub.ParseTag tag).name
        else (br.Hub.ParseTag tag).name ++ ":" ++ (br.Hub.ParseTag tag).version) := by
    unfold cleanTag
    by_cases hv : (br.Hub.ParseTag tag).version = "" <;> simp [hv]
  unfold UserBroker.GetPluginInfo UserBroker.getPluginInfoWithNames
  simp only [hparse, hns, ne_eq, not_true_eq_false, if_false, hct]
  refine ⟨?_, ?_, ?_⟩
  · intro hbr p hp
    simp [hbr, hp]
  · intro h
    rcases h with hbr | hfail
    · simp [hbr]
    · by_cases hbr : br.Namespace = ""
      · simp [hbr]
      · simp only [hbr, not_false_eq_true, if_true]
        split
        · rfl
        · rename_i hnone
          exact absurd hnone hfail
  · intro hbr hsys
    simp [hbr, hsys]

/-- C4, witness: on the sample disk the tenant `demo` gets its own `php`, and
gets the system `php` for `php:7.0`, which it has not installed; a caller
without a namespace gets the system `php`. -/
theorem GetPluginInfo_without_namespace_witness :
    demoBroker.GetPluginInfo "php" = (some phpDiskDemo, none) ∧
    demoBroker.GetPluginInfo "php:7.0" = (some phpDisk, none) ∧
    anonBroker.GetPluginInfo "php" = (some phpDisk, none) ∧
    (anonBroker.GetPluginInfo "php").2 = none :=
  ⟨by decide, by decide, by decide,
   (GetPluginInfo_without_namespace anonBroker "php" (by decide) (by decide)).2.2
      (by decide) (by decide)⟩

/-! ## Application names and the create handler: C8 -/

theorem Regex.matchChars_cons (r : Regex) (c : Char) (w : List Char) :
    r.matchChars (c :: w) = (r.deriv c).matchChars w := rfl

theorem Regex.matchChars_fail : ∀ w : List Char, Regex.fail.matchChars w = false
  | [] => rfl
  | c :: w => by
    rw [Regex.matchChars_cons]
    exact Regex.matchChars_fail w

theorem Regex.matchChars_alt : ∀ (w : List Char) (r s : Regex),
    (Regex.alt r s).matchChars w = (r.matchChars w || s.matchChars w)
  | [], _, _ => rfl
  | c :: w, r, s => by
    rw [Regex.matchChars_cons, Regex.matchChars_cons, Regex.matchChars_cons]
    exact Regex.matchChars_alt w _ _

theorem Regex.matchChars_seq_fail (s : Regex) :
    ∀ w : List Char, (Regex.seq Regex.fail s).matchChars w = false
  | [] => rfl
  | c :: w => by
    rw [Regex.matchChars_cons]
    exact Regex.matchChars_seq_fail s w

theorem Regex.matchChars_star_cls (ranges : List (Char × Char)) :
    ∀ w : List Char,
      (Regex.seq Regex.eps (Regex.star (Regex.cls ranges))).matchChars w
        = w.all (inClass ranges)
  | [] => rfl
  | c :: w => by
    rw [Regex.matchChars_cons]
    have hd : (Regex.seq Regex.eps (Regex.star (Regex.cls ranges))).deriv c =
        Regex.alt (Regex.seq Regex.fail (Regex.star (Regex.cls ranges)))
          (Regex.seq (if inClass ranges c then Regex.eps else Regex.fail)
            (Regex.star (Regex.cls ranges))) := by
      simp [Regex.deriv, Regex.nullable]
    rw [hd, Regex.matchChars_alt, Regex.matchChars_seq_fail, List.all_cons]
    by_cases hc : inClass ranges c = true
    · simp [hc, Regex.matchChars_star_cls ranges w]
    · simp [hc, Regex.matchChars_seq_fail]

theorem namePattern_matchChars (c : Char) (w : List Char) :
    namePattern.matchChars (c :: w) =
      (inClass [('a', 'z')] c && w.all (inClass [('a', 'z'), ('_', '_'), ('0', '9')])) := by
  rw [Regex.matchChars_cons]
  have hd : namePattern.deriv c =
      Regex.seq (if inClass [('a', 'z')] c then Regex.eps else Regex.fail)
        (Regex.star (Regex.cls [('a', 'z'), ('_', '_'), ('0', '9')])) := by
    simp [namePattern, Regex.deriv, Regex.nullable]
  rw [hd]
  by_cases hc : inClass [('a', 'z')] c = true
  · simp [hc, Regex.matchChars_star_cls]
  · simp [hc, Regex.matchChars_seq_fail]

theorem namePattern_MatchString (s : String) :
    namePattern.MatchString s = true ↔
      ∃ c w, s.data = c :: w ∧ ('a'.toNat ≤ c.toNat ∧ c.toNat ≤ 'z'.toNat) ∧
        ∀ d ∈ w, ('a'.toNat ≤ d.toNat ∧ d.toNat ≤ 'z'.toNat) ∨
          ('0'.toNat ≤ d.toNat ∧ d.toNat ≤ '9'.toNat) ∨ d = '_' := by
  have hunder : ∀ d : Char, ('_'.toNat ≤ d.toNat ∧ d.toNat ≤ '_'.toNat) ↔ d = '_' := by
    intro d
    constructor
    · intro h
      apply Char.ext
      apply UInt32.ext
      have h1 : d.toNat = '_'.toNat := by omega
      exact h1
    · intro h
      subst h
      exact ⟨Nat.le_refl _, Nat.le_refl _⟩
  unfold Regex.MatchString
  cases hs : s.data with
  | nil => simp [Regex.matchChars, namePattern, Regex.nullable]
  | cons c w =>
    rw [namePattern_matchChars]
    simp only [Bool.and_eq_true, List.all_eq_true, inClass, List.any_cons, List.any_nil,
      Bool.or_false, Bool.or_eq_true, decide_eq_true_eq, List.cons.injEq, hunder]
    constructor
    · rintro ⟨h1, h2⟩
      refine ⟨c, w, ⟨rfl, rfl⟩, h1, ?_⟩
      intro d hd
      rcases h2 d hd with h | h | h
      · exact Or.inl h
      · exact Or.inr (Or.inr h)
      · exact Or.inr (Or.inl h)
    · rintro ⟨c', w', ⟨rfl, rfl⟩, h1, h2⟩
      refine ⟨h1, ?_⟩
      intro d hd
      rcases h2 d hd with h | h | h
      · exact Or.inl h
      · exact Or.inr (Or.inr h)
      · exact Or.inr (Or.inl h)

/-- C8: in the create handler, when form parsing, the JSON content-type check,
the user lookup and the body decoding succeed, the Broker's `CreateApplication`
is invoked if and only if the requested name is non-empty, starts with a
lowercase letter a-z and otherwise contains only a-z, 0-9 and `_`, and the
framework is non-empty; in every other case the handler answers Bad Request and
makes no `CreateApplication` or `StartContainers` call. -/
theorem create_validates_before_broker (r : CreateRequest)
    (hform : r.ParseForm = none) (hjson : r.CheckForJSON = none)
    (huser : r.currentUser.2 = none) (hbody : r.Decode.2 = none) :
    ((∃ call ∈ (applicationsRouter.create r).calls, ∃ u o t, call = BrokerCall.CreateApplication u o t) ↔
      ((∃ c w, r.Decode.1.Name.data = c :: w ∧ ('a'.toNat ≤ c.toNat ∧ c.toNat ≤ 'z'.toNat) ∧
          ∀ d ∈ w, ('a'.toNat ≤ d.toNat ∧ d.toNat ≤ 'z'.toNat) ∨
            ('0'.toNat ≤ d.toNat ∧ d.toNat ≤ '9'.toNat) ∨ d = '_') ∧
        r.Decode.1.Framework ≠ "")) ∧
    (¬ ((∃ c w, r.Decode.1.Name.data = c :: w ∧ ('a'.toNat ≤ c.toNat ∧ c.toNat ≤ 'z'.toNat) ∧
          ∀ d ∈ w, ('a'.toNat ≤ d.toNat ∧ d.toNat ≤ 'z'.toNat) ∨
            ('0'.toNat ≤ d.toNat ∧ d.toNat ≤ '9'.toNat) ∨ d = '_') ∧
        r.Decode.1.Framework ≠ "") →
      (applicationsRouter.create r).status = some StatusBadRequest ∧ (applicationsRouter.create r).err = none ∧
        (applicationsRouter.create r).calls = []) := by
  rw [← namePattern_MatchString]
  unfold applicationsRouter.create
  simp only [hform, hjson, huser, hbody]
  by_cases hname : namePattern.MatchString r.Decode.1.Name = true
  · by_cases hfw : r.Decode.1.Framework = ""
    · simp [hname, hfw, httpError]
    · simp only [hname, hfw, Bool.not_true, Bool.false_eq_true, if_false, ne_eq,
        not_false_eq_true, and_self, not_true_eq_false, false_implies, and_true, iff_true]
      split
      · exact ⟨_, List.mem_cons_self _ _, _, _, _, rfl⟩
      · split
        · exact ⟨_, List.mem_cons_self _ _, _, _, _, rfl⟩
        · exact ⟨_, List.mem_cons_self _ _, _, _, _, rfl⟩
  · simp [hname, httpError]

/-- C8, witness: `myapp` on `php` reaches the broker; the names `1abc`, `Abc`
and the empty name, and an empty framework, are answered with Bad Request
without any broker call. -/
theorem create_validates_before_broker_witness :
    applicationsRouter.create (sampleCreate "my_app1" "php") =
      ⟨some StatusCreated, "", none,
        [BrokerCall.CreateApplication "alice" ⟨"my_app1", "", 1⟩ ["php"],
         BrokerCall.StartContainers ["my_app1-1"]]⟩ ∧
    (applicationsRouter.create (sampleCreate "1abc" "php")).calls = [] ∧
    (applicationsRouter.create (sampleCreate "Abc" "php")).calls = [] ∧
    (applicationsRouter.create (sampleCreate "" "php")).calls = [] ∧
    (applicationsRouter.create (sampleCreate "myapp" "")).calls = [] ∧
    (applicationsRouter.create (sampleCreate "1abc" "php")).status = some StatusBadRequest :=
  ⟨by decide, by decide, by decide, by decide, by decide,
   ((create_validates_before_broker (sampleCreate "1abc" "php") rfl rfl rfl rfl).2
      (by
        rintro ⟨⟨c, w, h, hc, _⟩, _⟩
        have h' : ['1', 'a', 'b', 'c'] = c :: w := h
        injection h' with h1 h2
        subst h1
        exact absurd hc.1 (by decide))).1⟩

/-! ## Proxy selection: C10 -/

/-- C10: for every content of the scheme registry, `proxy.New("")` fails with
the proxy-not-configured error, whatever the registry holds; for every
non-empty URL that parses with scheme s, `proxy.New` fails with the
unsupported-scheme error naming s when no constructor is registered for s, and
otherwise returns exactly the result (proxy and error) of the constructor
registered for s applied to the parsed URL. -/
theorem New_selects_constructor (registry : String → Option proxyFunc)
    (urlParse : String → Except Error URL) :
    proxy.New registry urlParse "" = (none, some (Error.errorf "Proxy URL not configured")) ∧
    (∀ (proxyUrl : String) (u : URL), proxyUrl ≠ "" → urlParse proxyUrl = Except.ok u →
      (registry u.Scheme = none →
        proxy.New registry urlParse proxyUrl =
          (none, some (Error.errorf ("Unsuported proxy scheme: " ++ u.Scheme)))) ∧
      (∀ fn, registry u.Scheme = some fn → proxy.New registry urlParse proxyUrl = fn u)) := by
  refine ⟨by simp [proxy.New], ?_⟩
  intro proxyUrl u hne hparse
  constructor
  · intro hreg
    simp [proxy.New, hne, hparse, hreg]
  · intro fn hreg
    simp [proxy.New, hne, hparse, hreg]

/-- C10, witness: with the one scheme `hipache` registered, the empty address
is not configured, `redis://cache` has no constructor, and `hipache://router`
and `hipache://` give what the constructor gives. -/
theorem New_selects_constructor_witness :
    proxy.New sampleRegistry sampleParse "" = (none, some (Error.errorf "Proxy URL not configured")) ∧
    proxy.New sampleRegistry sampleParse "redis://cache"
      = (none, some (Error.errorf "Unsuported proxy scheme: redis")) ∧
    proxy.New sampleRegistry sampleParse "hipache://router" = (some ⟨"hipache", "router"⟩, none) ∧
    proxy.New sampleRegistry sampleParse "hipache://" = (none, some (Error.errorf "missing host")) :=
  ⟨(New_selects_constructor sampleRegistry sampleParse).1,
   ((New_selects_constructor sampleRegistry sampleParse).2 "redis://cache" ⟨"redis", "cache"⟩
      (by decide) rfl).1 rfl,
   by decide, by decide⟩

/-! ## The merge as a rearrangement: C11 -/

theorem overrideLoop_structure :
    ∀ S U : List Plugin, ∃ (repl : List (Option Plugin)) (kept : List Plugin),
      List.Forall₂ (fun s r => match r with
          | some pp => pp.Name = s.Name
          | none => ∀ q ∈ (overrideLoop S U).2, q.Name ≠ s.Name) S repl ∧
      (overrideLoop S U).1 = List.zipWith (fun s r => r.getD s) S repl ∧
      U.Perm (repl.reduceOption ++ (overrideLoop S U).2) ∧
      kept.Sublist S ∧
      (overrideLoop S U).1.Perm (kept ++ repl.reduceOption) ∧
      kept.length + repl.reduceOption.length = S.length
  | [], U => ⟨[], [], List.Forall₂.nil, rfl, by simp [overrideLoop], List.Sublist.slnil,
      by simp [overrideLoop], rfl⟩
  | p :: ps, U => by
    cases heq : spliceByName p.Name U with
    | some found =>
      obtain ⟨pp, U'⟩ := found
      obtain ⟨hname, hperm⟩ := spliceByName_some p.Name U pp U' heq
      obtain ⟨repl, kept, h1, h2, h3, h4, h5, h6⟩ := overrideLoop_structure ps U'
      have e1 : (overrideLoop (p :: ps) U).1 = pp :: (overrideLoop ps U').1 := by
        simp [overrideLoop, heq]
      have e2 : (overrideLoop (p :: ps) U).2 = (overrideLoop ps U').2 := by
        simp [overrideLoop, heq]
      refine ⟨some pp :: repl, kept, ?_, ?_, ?_, ?_, ?_, ?_⟩
      · rw [e2]
        exact List.Forall₂.cons hname h1
      · rw [e1, h2]
        rfl
      · rw [e2, List.reduceOption_cons_of_some]
        exact hperm.trans (h3.cons pp)
      · exact h4.cons p
      · rw [e1, List.reduceOption_cons_of_some]
        exact (h5.cons pp).trans List.perm_middle.symm
      · rw [List.reduceOption_cons_of_some]
        simp only [List.length_cons]
        omega
    | none =>
      have hnone := spliceByName_none p.Name U heq
      obtain ⟨repl, kept, h1, h2, h3, h4, h5, h6⟩ := overrideLoop_structure ps U
      have e1 : (overrideLoop (p :: ps) U).1 = p :: (overrideLoop ps U).1 := by
        simp [overrideLoop, heq]
      have e2 : (overrideLoop (p :: ps) U).2 = (overrideLoop ps U).2 := by
        simp [overrideLoop, heq]
      refine ⟨none :: repl, p :: kept, ?_, ?_, ?_, ?_, ?_, ?_⟩
      · rw [e2]
        refine List.Forall₂.cons ?_ h1
        intro q hq
        exact hnone q (h3.symm.subset (List.mem_append_right _ hq))
      · rw [e1, h2]
        rfl
      · rw [e2, List.reduceOption_cons_of_none]
        exact h3
      · exact h4.cons₂ p
      · rw [e1, List.reduceOption_cons_of_none]
        exact h5.cons p
      · rw [List.reduceOption_cons_of_none]
        simp only [List.length_cons]
        omega

/-- C11: for a caller with a non-empty namespace, system catalog S and caller
catalog U, the result of `GetInstalledPlugins` is a permutation of S with each
replaced entry substituted by a caller plugin of the same name (`repl` holds,
entry by entry, the substitute or `none`), followed by the caller plugins that
replaced nothing (`rest`).  The substitutes and `rest` together are exactly U,
so the splice neither drops nor duplicates a caller plugin: the result is a
permutation of the system entries that were kept followed by U, and its length
is |S| + |U| minus the number of replaced system entries. -/
theorem GetInstalledPlugins_merge_permutation (br : UserBroker) (category : Category)
    (hns : br.Namespace ≠ "") :
    ∃ (repl : List (Option Plugin)) (rest kept : List Plugin),
      List.Forall₂ (fun s r => match r with
          | some pp => pp.Name = s.Name
          | none => ∀ q ∈ rest, q.Name ≠ s.Name) (br.Hub.ListPlugins "" category) repl ∧
      (br.GetInstalledPlugins category).Perm
        (List.zipWith (fun s r => r.getD s) (br.Hub.ListPlugins "" category) repl ++ rest) ∧
      (br.Hub.ListPlugins br.Namespace category).Perm (repl.reduceOption ++ rest) ∧
      kept.Sublist (br.Hub.ListPlugins "" category) ∧
      kept.length + repl.reduceOption.length = (br.Hub.ListPlugins "" category).length ∧
      (br.GetInstalledPlugins category).Perm
        (kept ++ br.Hub.ListPlugins br.Namespace category) ∧
      (br.GetInstalledPlugins category).length =
        (br.Hub.ListPlugins "" category).length +
          (br.Hub.ListPlugins br.Namespace category).length - repl.reduceOption.length := by
  obtain ⟨repl, kept, h1, h2, h3, h4, h5, h6⟩ :=
    overrideLoop_structure (br.Hub.ListPlugins "" category)
      (br.Hub.ListPlugins br.Namespace category)
  have hperm := GetInstalledPlugins_perm br category hns
  have hres : (br.GetInstalledPlugins category).Perm
      (kept ++ br.Hub.ListPlugins br.Namespace category) := by
    refine hperm.trans ?_
    refine (List.Perm.append_right _ h5).trans ?_
    rw [List.append_assoc]
    exact List.Perm.append_left _ h3.symm
  refine ⟨repl, _, kept, h1, ?_, h3, h4, h6, hres, ?_⟩
  · rw [← h2]
    exact hperm
  · have l1 := hres.length_eq
    have l2 := h3.length_eq
    simp only [List.length_append] at l1 l2
    omega

/-- C11, witness: the tenant `demo` with system catalog `php` 7.0, `go` and its
own `php` 7.1: the system `php` is replaced, `go` is kept, nothing is appended. -/
theorem GetInstalledPlugins_merge_permutation_witness :
    oneVersionBroker.GetInstalledPlugins Category.Framework = [goSys, phpDemo] ∧
    ∃ (repl : List (Option Plugin)) (rest kept : List Plugin),
      List.Forall₂ (fun s r => match r with
          | some pp => pp.Name = s.Name
          | none => ∀ q ∈ rest, q.Name ≠ s.Name)
        (oneVersionBroker.Hub.ListPlugins "" Category.Framework) repl ∧
      (oneVersionBroker.GetInstalledPlugins Category.Framework).Perm
        (List.zipWith (fun s r => r.getD s)
          (oneVersionBroker.Hub.ListPlugins "" Category.Framework) repl ++ rest) ∧
      (oneVersionBroker.Hub.ListPlugins oneVersionBroker.Namespace Category.Framework).Perm
        (repl.reduceOption ++ rest) ∧
      kept.Sublist (oneVersionBroker.Hub.ListPlugins "" Category.Framework) ∧
      kept.length + repl.reduceOption.length =
        (oneVersionBroker.Hub.ListPlugins "" Category.Framework).length ∧
      (oneVersionBroker.GetInstalledPlugins Category.Framework).Perm
        (kept ++ oneVersionBroker.Hub.ListPlugins oneVersionBroker.Namespace
          Category.Framework) ∧
      (oneVersionBroker.GetInstalledPlugins Category.Framework).length =
        (oneVersionBroker.Hub.ListPlugins "" Category.Framework).length +
          (oneVersionBroker.Hub.ListPlugins oneVersionBroker.Namespace
            Category.Framework).length - repl.reduceOption.length :=
  ⟨by decide,
   GetInstalledPlugins_merge_permutation oneVersionBroker Category.Framework (by decide)⟩

/-! ## Plugin returned with an error: C12 -/

/-- C12, evaluation at the failing input: the tenant `demo` asks for
`other/foo:1.0`, a plugin of the tenant `other` that is installed and not
shared.  The Hub returns the plugin without error, and `GetPluginInfo` returns
the plugin record together with the plugin-not-found error. -/
theorem GetPluginInfo_plugin_with_error :
    (demoBroker.Hub.ParseTag "other/foo:1.0").nspace = "other" ∧
    demoBroker.Namespace = "demo" ∧
    demoBroker.Hub.GetPluginInfo "other/foo:1.0" = (some fooOther, none) ∧
    fooOther.Shared = false ∧
    demoBroker.GetPluginInfo "other/foo:1.0"
      = (some fooOther, some (Error.errorf "other/foo:1.0: plugin not found")) ∧
    ¬ ((demoBroker.GetPluginInfo "other/foo:1.0").2 ≠ none →
        (demoBroker.GetPluginInfo "other/foo:1.0").1 = none) := by
  decide

/-! ## Indexing the container list: C13 -/

/-- C13, evaluation at the failing input: the lookup of the service `redis` of
the application `shop` returns an empty container list and no error, and
`getContainer` stops with an index-out-of-range panic instead of returning a
container or an error; with a container found, or a lookup error, it returns. -/
theorem getContainer_empty_list_panics :
    applicationsRouter.getContainers sampleFinder "demo" (routeVars "shop" "redis") = ([], none) ∧
    applicationsRouter.getContainer sampleFinder "demo" (routeVars "shop" "redis")
      = Run.panic "index out of range" ∧
    applicationsRouter.getContainer sampleFinder "demo" (routeVars "shop" "mysql")
      = Run.ret (some ⟨"c2"⟩, none) ∧
    applicationsRouter.getContainer sampleFinder "demo" (routeVars "shop" "*")
      = Run.ret (some ⟨"c1"⟩, none) ∧
    applicationsRouter.getContainer sampleFinder "demo" (routeVars "gone" "")
      = Run.ret (none, some (Error.errorf "cannot connect to the container engine")) := by
  decide

/-! ## Table layout: lemmas -/

theorem goBytes_append (a b : String) : goBytes (a ++ b) = goBytes a ++ goBytes b := by
  simp [goBytes, String.data_append, List.flatMap_append]

theorem goLen_append (a b : String) : goLen (a ++ b) = goLen a + goLen b := by
  simp [goLen, goBytes_append]

theorem goBytes_empty : goBytes "" = [] := rfl

theorem goLen_spaces : ∀ n : Nat, goLen (String.mk (repeatChars [' '] n)) = n
  | 0 => rfl
  | n + 1 => by
    have ih := goLen_spaces n
    have e : String.mk (repeatChars [' '] (n + 1)) = " " ++ String.mk (repeatChars [' '] n) := by
      apply String.ext
      simp [repeatChars, String.data_append]
    rw [e, goLen_append, ih]
    have : goLen " " = 1 := by decide
    omega

theorem stringsRepeat_spaces (count : Int) (h : 0 ≤ count) :
    ∃ spaces, stringsRepeat " " count = Run.ret spaces ∧ goLen spaces = count.toNat := by
  refine ⟨String.mk (repeatChars [' '] count.toNat), ?_, goLen_spaces _⟩
  unfold stringsRepeat
  rw [if_neg (by omega)]

theorem stringsRepeat_zero : stringsRepeat " " 0 = Run.ret "" := by decide

theorem string_append_empty (s : String) : s ++ "" = s := by
  apply String.ext
  simp [String.data_append]

theorem columnOffset_zero (widths : List Nat) (gap : Int) : columnOffset widths gap 0 = 0 := by
  simp [columnOffset]

theorem columnOffset_succ (w : Nat) (ws : List Nat) (gap : Int) (k : Nat) :
    columnOffset (w :: ws) gap (k + 1) = (w + gap.toNat) + columnOffset ws gap k := by
  simp [columnOffset]

theorem paddingLoop_aligned (ansi : Ansi) (gap : Int) (hgap : 0 ≤ gap) :
    ∀ (widths : List Nat) (cells : List String), widths.length = cells.length →
      (∀ (k w : Nat) (c : String), widths[k]? = some w → cells[k]? = some c → goLen c ≤ w) →
      (∀ (k w : Nat), widths[k]? = some w → (w : Int) + gap < 9223372036854775808) →
      ∃ cells', paddingLoop ansi gap none widths cells = Run.ret cells' ∧
        paddingLoop ansi gap none widths cells' = Run.ret cells' ∧
        columnsBeginAt widths gap cells (joinCells cells')
  | [], [], _, _, _ => ⟨[], rfl, rfl, by intro k c h; simp at h⟩
  | [], _ :: _, h, _, _ => by simp at h
  | _ :: _, [], h, _, _ => by simp at h
  | [w], [c], _, _, _ => by
    refine ⟨[c], ?_, ?_, ?_⟩
    · simp [paddingLoop, paddingCell]
    · simp [paddingLoop, paddingCell]
    · intro k c0 hk
      cases k with
      | zero =>
        simp only [List.getElem?_cons_zero, Option.some.injEq] at hk
        subst hk
        simp [columnOffset_zero, joinCells, goBytes_append, goBytes_empty, goLen]
      | succ k => simp at hk
  | [_], _ :: _ :: _, h, _, _ => by simp at h
  | _ :: _ :: _, [_], h, _, _ => by simp at h
  | w :: w2 :: ws, c :: c2 :: cs, hlen, hb, hfit => by
    have hc : goLen c ≤ w := hb 0 w c (by simp) (by simp)
    have hwfit : (w : Int) + gap < 9223372036854775808 := hfit 0 w (by simp)
    have hwrap : intWrap ((w : Int) - (goLen c : Int) + gap)
        = (w : Int) - (goLen c : Int) + gap := by
      unfold intWrap
      omega
    obtain ⟨sp, hsp, hsplen⟩ :=
      stringsRepeat_spaces ((w : Int) - (goLen c : Int) + gap) (by omega)
    obtain ⟨cs', h1, h2, h3⟩ := paddingLoop_aligned ansi gap hgap (w2 :: ws) (c2 :: cs)
      (by simpa using hlen)
      (fun k w' c' hw hc' => hb (k + 1) w' c' (by simpa using hw) (by simpa using hc'))
      (fun k w' hw => hfit (k + 1) w' (by simpa using hw))
    have hL : goLen (c ++ sp) = w + gap.toNat := by
      rw [goLen_append, hsplen]
      omega
    have hz : intWrap ((w : Int) - (goLen (c ++ sp) : Int) + gap) = 0 := by
      rw [hL]
      unfold intWrap
      omega
    refine ⟨(c ++ sp) :: cs', ?_, ?_, ?_⟩
    · rw [paddingLoop]
      simp [paddingCell, hwrap, hsp, h1]
    · rw [paddingLoop]
      simp [paddingCell, hz, stringsRepeat_zero, string_append_empty, h2]
    · intro k c0 hk
      cases k with
      | zero =>
        simp only [List.getElem?_cons_zero, Option.some.injEq] at hk
        subst hk
        simp [columnOffset_zero, joinCells, goBytes_append, goLen]
      | succ k =>
        simp only [List.getElem?_cons_succ] at hk
        have ih := h3 k c0 hk
        have hlist : goBytes (joinCells ((c ++ sp) :: cs'))
            = goBytes (c ++ sp) ++ goBytes (joinCells cs') := by
          simp [joinCells, goBytes_append]
        have hlen' : (goBytes (c ++ sp)).length = w + gap.toNat := hL
        rw [hlist, columnOffset_succ, ← hlen', List.drop_append]
        exact ih

theorem getElem?_some_of_length_eq {α β : Type} (xs : List α) (ys : List β)
    (hlen : xs.length = ys.length) (k : Nat) (x : α) (hx : xs[k]? = some x) :
    ∃ y, ys[k]? = some y := by
  obtain ⟨hk, _⟩ := List.getElem?_eq_some.mp hx
  exact ⟨ys[k], List.getElem?_eq_getElem (by omega)⟩

theorem widthsRow_max :
    ∀ (ws : List Nat) (cells : List String), cells.length = ws.length →
      ∃ ws', widthsRow ws cells = Run.ret ws' ∧ ws'.length = ws.length ∧
        ∀ (k w : Nat) (c : String), ws[k]? = some w → cells[k]? = some c →
          ws'[k]? = some (max w (goLen c))
  | [], [], _ => ⟨[], rfl, rfl, by intro k w c h; simp at h⟩
  | [], _ :: _, h => by simp at h
  | _ :: _, [], h => by simp at h
  | w :: ws, cell :: cells, h => by
    obtain ⟨ws', h1, h2, h3⟩ := widthsRow_max ws cells (by simpa using h)
    refine ⟨(if goLen cell > w then goLen cell else w) :: ws', ?_, ?_, ?_⟩
    · simp [widthsRow, h1]
    · simp [h2]
    · intro k w0 c hw hc
      cases k with
      | zero =>
        simp only [List.getElem?_cons_zero, Option.some.injEq] at hw hc ⊢
        subst hw
        subst hc
        split <;> omega
      | succ k =>
        simp only [List.getElem?_cons_succ] at hw hc ⊢
        exact h3 k w0 c hw hc

theorem widthsRows_max :
    ∀ (rows : List (List String)) (ws0 : List Nat),
      (∀ row ∈ rows, row.length = 1 ∨ row.length = ws0.length) →
      ∃ ws, widthsRows ws0 rows = Run.ret ws ∧ ws.length = ws0.length ∧
        (∀ (k w0 : Nat), ws0[k]? = some w0 → ∃ w, ws[k]? = some w ∧ w0 ≤ w) ∧
        (∀ row ∈ rows, row.length ≠ 1 → ∀ (k : Nat) (c : String), row[k]? = some c →
          ∃ w, ws[k]? = some w ∧ goLen c ≤ w) ∧
        (∀ (k w : Nat), ws[k]? = some w → ws0[k]? = some w ∨
          ∃ row ∈ rows, row.length ≠ 1 ∧ ∃ c, row[k]? = some c ∧ w = goLen c)
  | [], ws0, _ => ⟨ws0, rfl, rfl, fun k w0 h => ⟨w0, h, Nat.le_refl _⟩,
      by intro row hrow; simp at hrow, fun k w h => Or.inl h⟩
  | row :: rows, ws0, hrows => by
    by_cases hone : row.length = 1
    · obtain ⟨ws, h1, h2, h3, h4, h5⟩ := widthsRows_max rows ws0
        (fun r hr => hrows r (List.mem_cons_of_mem _ hr))
      refine ⟨ws, ?_, h2, h3, ?_, ?_⟩
      · simp [widthsRows, hone, h1]
      · intro r hr hne k c hc
        rcases List.mem_cons.mp hr with rfl | hr
        · exact absurd hone hne
        · exact h4 r hr hne k c hc
      · intro k w hw
        rcases h5 k w hw with h | ⟨r, hr, hne, c, hc, he⟩
        · exact Or.inl h
        · exact Or.inr ⟨r, List.mem_cons_of_mem _ hr, hne, c, hc, he⟩
    · have hlen : row.length = ws0.length := by
        rcases hrows row (List.mem_cons_self _ _) with h | h
        · exact absurd h hone
        · exact h
      obtain ⟨ws1, g1, g2, g3⟩ := widthsRow_max ws0 row hlen
      obtain ⟨ws, h1, h2, h3, h4, h5⟩ := widthsRows_max rows ws1
        (fun r hr => by
          rcases hrows r (List.mem_cons_of_mem _ hr) with h | h
          · exact Or.inl h
          · exact Or.inr (by omega))
      refine ⟨ws, ?_, by omega, ?_, ?_, ?_⟩
      · simp [widthsRows, hone, g1, h1]
      · intro k w0 hw0
        obtain ⟨c, hc⟩ := getElem?_some_of_length_eq ws0 row hlen.symm k w0 hw0
        obtain ⟨w, hw, hle⟩ := h3 k _ (g3 k w0 c hw0 hc)
        exact ⟨w, hw, by omega⟩
      · intro r hr hne k c hc
        rcases List.mem_cons.mp hr with rfl | hr
        · obtain ⟨w0, hw0⟩ := getElem?_some_of_length_eq r ws0 hlen k c hc
          obtain ⟨w, hw, hle⟩ := h3 k _ (g3 k w0 c hw0 hc)
          exact ⟨w, hw, by omega⟩
        · exact h4 r hr hne k c hc
      · intro k w hw
        rcases h5 k w hw with h | ⟨r, hr, hne, c, hc, he⟩
        · obtain ⟨w0, hw0⟩ := getElem?_some_of_length_eq ws1 ws0 g2 k w h
          obtain ⟨c, hc⟩ := getElem?_some_of_length_eq ws0 row hlen.symm k w0 hw0
          have hmax := g3 k w0 c hw0 hc
          rw [h] at hmax
          simp only [Option.some.injEq] at hmax
          by_cases hcase : goLen c ≤ w0
          · left
            rw [hw0]
            congr 1
            omega
          · right
            exact ⟨row, List.mem_cons_self _ _, hone, c, hc, by omega⟩
        · exact Or.inr ⟨r, List.mem_cons_of_mem _ hr, hne, c, hc, he⟩

theorem padding_of_paddingLoop (ansi : Ansi) (widths : List Nat) (cells cells' : List String)
    (gap : Int) (header : Bool)
    (h : paddingLoop ansi gap none widths cells = Run.ret cells') :
    Table.padding ansi none widths cells gap header =
      Run.ret ((if header then ansi.Hilite (joinCells cells') else joinCells cells') ++ "\n",
        cells') := by
  unfold Table.padding
  simp only [ite_self, h]

theorem displayLoop_aligned (ansi : Ansi) (widths : List Nat) (gap : Int) (hgap : 0 ≤ gap)
    (hfit : ∀ (k w : Nat), widths[k]? = some w → (w : Int) + gap < 9223372036854775808)
    (hn : 2 ≤ widths.length) (titles0 padded : List String)
    (hpad0 : paddingLoop ansi gap none widths titles0 = Run.ret padded)
    (hpad1 : paddingLoop ansi gap none widths padded = Run.ret padded) :
    ∀ (rows : List (List String)) (i : Nat) (printHeader : Bool) (titles : List String),
      (titles = titles0 ∨ titles = padded) →
      (∀ row ∈ rows, row.length = 1 ∨ (row.length = widths.length ∧
        ∀ (k w : Nat) (c : String), widths[k]? = some w → row[k]? = some c → goLen c ≤ w)) →
      ∃ writes titles' rows',
        displayLoop ansi none widths gap i printHeader titles rows
          = Run.ret (writes, titles', rows') ∧
        (∀ row ∈ rows, row.length ≠ 1 →
          ∃ line, line ++ "\n" ∈ writes ∧ columnsBeginAt widths gap row line) ∧
        (printHeader = true → (∃ row ∈ rows, row.length ≠ 1) →
          ansi.Hilite (joinCells padded) ++ "\n" ∈ writes) ∧
        (∀ w ∈ writes, w = "\n" ∨ [w] ∈ rows ∨ w = ansi.Hilite (joinCells padded) ++ "\n" ∨
          ∃ row ∈ rows, row.length ≠ 1 ∧ ∃ line, w = line ++ "\n" ∧
            columnsBeginAt widths gap row line)
  | [], i, printHeader, titles, _, _ => by
    refine ⟨[], titles, [], by simp [displayLoop], ?_, ?_, ?_⟩
    · intro row hrow
      simp at hrow
    · rintro _ ⟨row, hrow, _⟩
      simp at hrow
    · intro w hw
      simp at hw
  | [] :: rest, i, printHeader, titles, _, hrows => by
    rcases hrows [] (List.mem_cons_self _ _) with h | h
    · simp at h
    · have := h.1
      simp at this
      omega
  | [subtitle] :: rest, i, printHeader, titles, htitles, hrows => by
    obtain ⟨writes, titles', rows', h1, h2, h3, h4⟩ :=
      displayLoop_aligned ansi widths gap hgap hfit hn titles0 padded hpad0 hpad1 rest (i + 1) true
        titles htitles (fun r hr => hrows r (List.mem_cons_of_mem _ hr))
    refine ⟨(if i ≠ 0 then ["\n"] else []) ++ [subtitle, "\n"] ++ writes, titles',
      [subtitle] :: rows', ?_, ?_, ?_, ?_⟩
    · rw [displayLoop, h1]
    · intro row hrow hne
      rcases List.mem_cons.mp hrow with rfl | hrow
      · simp at hne
      · obtain ⟨line, hl, hc⟩ := h2 row hrow hne
        exact ⟨line, List.mem_append_right _ hl, hc⟩
    · rintro _ ⟨row, hrow, hne⟩
      rcases List.mem_cons.mp hrow with rfl | hrow
      · simp at hne
      · exact List.mem_append_right _ (h3 rfl ⟨row, hrow, hne⟩)
    · intro w hw
      rcases List.mem_append.mp hw with hw | hw
      · rcases List.mem_append.mp hw with hw | hw
        · left
          split at hw
          · simpa using hw
          · simp at hw
        · rcases List.mem_cons.mp hw with rfl | hw
          · right
            left
            exact List.mem_cons_self _ _
          · left
            simpa using hw
      · rcases h4 w hw with h | h | h | ⟨row, hrow, hne, line, hl, hc⟩
        · exact Or.inl h
        · exact Or.inr (Or.inl (List.mem_cons_of_mem _ h))
        · exact Or.inr (Or.inr (Or.inl h))
        · exact Or.inr (Or.inr (Or.inr ⟨row, List.mem_cons_of_mem _ hrow, hne, line, hl, hc⟩))
  | (a :: b :: r) :: rest, i, printHeader, titles, htitles, hrows => by
    have hrow : (a :: b :: r).length = widths.length ∧
        ∀ (k w : Nat) (c : String), widths[k]? = some w → (a :: b :: r)[k]? = some c →
          goLen c ≤ w := by
      rcases hrows (a :: b :: r) (List.mem_cons_self _ _) with h | h
      · simp at h
      · exact h
    obtain ⟨row', r1, _, r3⟩ :=
      paddingLoop_aligned ansi gap hgap widths (a :: b :: r) hrow.1.symm hrow.2 hfit
    have hline := padding_of_paddingLoop ansi widths (a :: b :: r) row' gap false r1
    have hhead : Table.padding ansi none widths titles gap true =
        Run.ret (ansi.Hilite (joinCells padded) ++ "\n", padded) := by
      rcases htitles with rfl | rfl
      · exact padding_of_paddingLoop ansi widths _ padded gap true hpad0
      · exact padding_of_paddingLoop ansi widths _ _ gap true hpad1
    have hne : (a :: b :: r).length ≠ 1 := by simp
    cases printHeader with
    | true =>
      obtain ⟨writes, titles', rows', h1, h2, h3, h4⟩ :=
        displayLoop_aligned ansi widths gap hgap hfit hn titles0 padded hpad0 hpad1 rest (i + 1)
          false padded (Or.inr rfl) (fun r hr => hrows r (List.mem_cons_of_mem _ hr))
      refine ⟨[ansi.Hilite (joinCells padded) ++ "\n"] ++ [joinCells row' ++ "\n"] ++ writes,
        titles', row' :: rows', ?_, ?_, ?_, ?_⟩
      · rw [displayLoop]
        · simp only [hhead, hline, h1, if_true, Bool.false_eq_true, if_false]
        · intro s hs
          simp at hs
      · intro row hrow1 hne1
        rcases List.mem_cons.mp hrow1 with rfl | hrow1
        · exact ⟨joinCells row', by simp, r3⟩
        · obtain ⟨line, hl, hc⟩ := h2 row hrow1 hne1
          exact ⟨line, List.mem_append_right _ hl, hc⟩
      · intro _ _
        simp
      · intro w hw
        rcases List.mem_append.mp hw with hw | hw
        · rcases List.mem_append.mp hw with hw | hw
          · right
            right
            left
            simpa using hw
          · right
            right
            right
            exact ⟨a :: b :: r, List.mem_cons_self _ _, hne, joinCells row', by simpa using hw, r3⟩
        · rcases h4 w hw with h | h | h | ⟨row, hrow2, hne2, line, hl, hc⟩
          · exact Or.inl h
          · exact Or.inr (Or.inl (List.mem_cons_of_mem _ h))
          · exact Or.inr (Or.inr (Or.inl h))
          · exact Or.inr (Or.inr (Or.inr
              ⟨row, List.mem_cons_of_mem _ hrow2, hne2, line, hl, hc⟩))
    | false =>
      obtain ⟨writes, titles', rows', h1, h2, h3, h4⟩ :=
        displayLoop_aligned ansi widths gap hgap hfit hn titles0 padded hpad0 hpad1 rest (i + 1)
          false titles htitles (fun r hr => hrows r (List.mem_cons_of_mem _ hr))
      refine ⟨[] ++ [joinCells row' ++ "\n"] ++ writes, titles', row' :: rows', ?_, ?_, ?_, ?_⟩
      · rw [displayLoop]
        · simp only [hline, h1, Bool.false_eq_true, if_false]
        · intro s hs
          simp at hs
      · intro row hrow1 hne1
        rcases List.mem_cons.mp hrow1 with rfl | hrow1
        · exact ⟨joinCells row', by simp, r3⟩
        · obtain ⟨line, hl, hc⟩ := h2 row hrow1 hne1
          exact ⟨line, List.mem_append_right _ hl, hc⟩
      · intro h
        exact absurd h (by simp)
      · intro w hw
        rcases List.mem_append.mp hw with hw | hw
        · right
          right
          right
          exact ⟨a :: b :: r, List.mem_cons_self _ _, hne, joinCells row', by simpa using hw, r3⟩
        · rcases h4 w hw with h | h | h | ⟨row, hrow2, hne2, line, hl, hc⟩
          · exact Or.inl h
          · exact Or.inr (Or.inl (List.mem_cons_of_mem _ h))
          · exact Or.inr (Or.inr (Or.inl h))
          · exact Or.inr (Or.inr (Or.inr
              ⟨row, List.mem_cons_of_mem _ hrow2, hne2, line, hl, hc⟩))

/-! ## Table layout: C14 -/

/-- C14, counterexample: on a terminal where `Hilite` makes the header bold,
the header line written for the sample table starts with the escape sequence,
so the title of column 0 does not begin at byte offset 0 (and the title of
column 1 not at offset 6 + 2).  And with the largest gap a 64-bit `int` holds,
the padding of the first title wraps around to a negative count and `Display`
panics, on an output without highlighting too. -/
theorem Display_header_shifted :
    sampleTable.titles = ["NAME", "VERSION"] ∧ sampleTable.colors = none ∧
    (∀ row ∈ sampleTable.rows, row.length = 1 ∨ row.length = 2) ∧
    Table.Display boldAnsi sampleTable 2 =
      Run.ret (["Frameworks", "\n", "\x1b[1mNAME    VERSION\x1b[0m\n", "php     7.0\n",
        "golang  1.6\n"],
        ⟨["NAME    ", "VERSION"], [["Frameworks"], ["php     ", "7.0"], ["golang  ", "1.6"]],
          none⟩) ∧
    columnOffset [6, 7] 2 0 = 0 ∧
    (goBytes "\x1b[1mNAME    VERSION\x1b[0m").take (goLen "NAME") ≠ goBytes "NAME" ∧
    Table.Display plainAnsi sampleTable 9223372036854775807
      = Run.panic "strings: negative Repeat count" ∧
    ¬ columnsBeginAt [6, 7] 2 ["NAME", "VERSION"] "\x1b[1mNAME    VERSION\x1b[0m" := by
  refine ⟨by decide, by decide, by decide, by decide, by decide, by decide, by decide, ?_⟩
  intro h
  have h0 := h 0 "NAME" rfl
  revert h0
  decide

/-- C14 (amended): for every table with n >= 2 titles, no colours set, rows
that are subtitles (one cell) or data rows of exactly n cells, and a gap >= 0
that added to the byte length of any title or data cell stays below 2^63 (so
that no padding overflows the 64-bit `int`), the first call of `Table.Display`
completes without a panic; with w_i the maximum
byte length of title i and of cell i over all data rows, every data row is
written as a line in which column k begins at byte offset
sum over i < k of (w_i + gap); the header line written (once a data row exists)
is `ansi.Hilite` applied to a title line in which column k begins at that
offset; and nothing else is written but subtitles and line breaks. -/
theorem Display_columns_aligned (ansi : Ansi) (tab : Table) (gap : Int) (n : Nat)
    (hn : 2 ≤ n) (htitles : tab.titles.length = n)
    (hrows : ∀ row ∈ tab.rows, row.length = 1 ∨ row.length = n)
    (hcolors : tab.colors = none) (hgap : 0 ≤ gap)
    (hfitTitles : ∀ t ∈ tab.titles, (goLen t : Int) + gap < 9223372036854775808)
    (hfitCells : ∀ row ∈ tab.rows, row.length ≠ 1 →
      ∀ c ∈ row, (goLen c : Int) + gap < 9223372036854775808) :
    ∃ (widths : List Nat) (writes : List String) (tab' : Table),
      Table.Display ansi tab gap = Run.ret (writes, tab') ∧
      widths.length = n ∧
      (∀ (k : Nat) (t : String), tab.titles[k]? = some t →
        ∃ w, widths[k]? = some w ∧ goLen t ≤ w) ∧
      (∀ row ∈ tab.rows, row.length ≠ 1 → ∀ (k : Nat) (c : String), row[k]? = some c →
        ∃ w, widths[k]? = some w ∧ goLen c ≤ w) ∧
      (∀ (k w : Nat), widths[k]? = some w →
        (∃ t, tab.titles[k]? = some t ∧ w = goLen t) ∨
        ∃ row ∈ tab.rows, row.length ≠ 1 ∧ ∃ c, row[k]? = some c ∧ w = goLen c) ∧
      (∀ row ∈ tab.rows, row.length ≠ 1 →
        ∃ line, line ++ "\n" ∈ writes ∧ columnsBeginAt widths gap row line) ∧
      ((∃ row ∈ tab.rows, row.length ≠ 1) →
        ∃ h, ansi.Hilite h ++ "\n" ∈ writes ∧ columnsBeginAt widths gap tab.titles h) ∧
      (∀ w ∈ writes, w = "\n" ∨ [w] ∈ tab.rows ∨
        (∃ h, w = ansi.Hilite h ++ "\n" ∧ columnsBeginAt widths gap tab.titles h) ∨
        ∃ row ∈ tab.rows, row.length ≠ 1 ∧ ∃ line, w = line ++ "\n" ∧
          columnsBeginAt widths gap row line) := by
  have hlen0 : (tab.titles.map goLen).length = n := by simp [htitles]
  obtain ⟨widths, w1, w2, w3, w4, w5⟩ := widthsRows_max tab.rows (tab.titles.map goLen)
    (fun row hrow => by rw [hlen0]; exact hrows row hrow)
  have hwlen : widths.length = n := by omega
  have ha : ∀ (k : Nat) (t : String), tab.titles[k]? = some t →
      ∃ w, widths[k]? = some w ∧ goLen t ≤ w := by
    intro k t ht
    exact w3 k (goLen t) (by simp [List.getElem?_map, ht])
  have hc : ∀ (k w : Nat), widths[k]? = some w →
      (∃ t, tab.titles[k]? = some t ∧ w = goLen t) ∨
      ∃ row ∈ tab.rows, row.length ≠ 1 ∧ ∃ c, row[k]? = some c ∧ w = goLen c := by
    intro k w hw
    rcases w5 k w hw with h | h
    · left
      rw [List.getElem?_map] at h
      cases ht : tab.titles[k]? with
      | none => simp [ht] at h
      | some t =>
        refine ⟨t, rfl, ?_⟩
        simp [ht] at h
        exact h.symm
    · exact Or.inr h
  have hbt : ∀ (k w : Nat) (c : String), widths[k]? = some w → tab.titles[k]? = some c →
      goLen c ≤ w := by
    intro k w c hw hc'
    obtain ⟨w', hw', hle⟩ := ha k c hc'
    rw [hw] at hw'
    simp only [Option.some.injEq] at hw'
    omega
  have hbr : ∀ row ∈ tab.rows, row.length = 1 ∨ (row.length = widths.length ∧
      ∀ (k w : Nat) (c : String), widths[k]? = some w → row[k]? = some c → goLen c ≤ w) := by
    intro row hrow
    rcases hrows row hrow with h | h
    · exact Or.inl h
    · right
      refine ⟨by omega, ?_⟩
      intro k w c hw hc'
      obtain ⟨w', hw', hle⟩ := w4 row hrow (by omega) k c hc'
      rw [hw] at hw'
      simp only [Option.some.injEq] at hw'
      omega
  have hfit : ∀ (k w : Nat), widths[k]? = some w →
      (w : Int) + gap < 9223372036854775808 := by
    intro k w hw
    rcases hc k w hw with ⟨t, ht, rfl⟩ | ⟨row, hrow, hne, c, hcell, rfl⟩
    · exact hfitTitles t (List.mem_iff_getElem?.mpr ⟨k, ht⟩)
    · exact hfitCells row hrow hne c (List.mem_iff_getElem?.mpr ⟨k, hcell⟩)
  obtain ⟨padded, p1, p2, p3⟩ :=
    paddingLoop_aligned ansi gap hgap widths tab.titles (by omega) hbt hfit
  obtain ⟨writes, titles', rows', d1, d2, d3, d4⟩ :=
    displayLoop_aligned ansi widths gap hgap hfit (by omega) tab.titles padded p1 p2 tab.rows 0
      true tab.titles (Or.inl rfl) hbr
  refine ⟨widths, writes, { tab with titles := titles', rows := rows' }, ?_, hwlen, ha, w4, hc,
    d2, ?_, ?_⟩
  · unfold Table.Display
    simp only [w1, hcolors, d1]
  · intro hex
    exact ⟨joinCells padded, d3 rfl hex, p3⟩
  · intro w hw
    rcases d4 w hw with h | h | h | h
    · exact Or.inl h
    · exact Or.inr (Or.inl h)
    · exact Or.inr (Or.inr (Or.inl ⟨joinCells padded, h, p3⟩))
    · exact Or.inr (Or.inr (Or.inr h))

/-- C14 (amended), witness: the sample table of two titles, one subtitle and two
data rows, built with `NewTable`, `AddSubtitle` and `AddRow`, displayed with gap
2 on an output without highlighting. -/
theorem Display_columns_aligned_witness :
    sampleTable = ⟨["NAME", "VERSION"], [["Frameworks"], ["php", "7.0"], ["golang", "1.6"]], none⟩ ∧
    Table.Display plainAnsi sampleTable 2 =
      Run.ret (["Frameworks", "\n", "NAME    VERSION\n", "php     7.0\n", "golang  1.6\n"],
        ⟨["NAME    ", "VERSION"], [["Frameworks"], ["php     ", "7.0"], ["golang  ", "1.6"]],
          none⟩) ∧
    ∃ (widths : List Nat) (writes : List String) (tab' : Table),
      Table.Display plainAnsi sampleTable 2 = Run.ret (writes, tab') ∧
      widths.length = 2 ∧
      (∀ (k : Nat) (t : String), sampleTable.titles[k]? = some t →
        ∃ w, widths[k]? = some w ∧ goLen t ≤ w) ∧
      (∀ row ∈ sampleTable.rows, row.length ≠ 1 → ∀ (k : Nat) (c : String), row[k]? = some c →
        ∃ w, widths[k]? = some w ∧ goLen c ≤ w) ∧
      (∀ (k w : Nat), widths[k]? = some w →
        (∃ t, sampleTable.titles[k]? = some t ∧ w = goLen t) ∨
        ∃ row ∈ sampleTable.rows, row.length ≠ 1 ∧ ∃ c, row[k]? = some c ∧ w = goLen c) ∧
      (∀ row ∈ sampleTable.rows, row.length ≠ 1 →
        ∃ line, line ++ "\n" ∈ writes ∧ columnsBeginAt widths 2 row line) ∧
      ((∃ row ∈ sampleTable.rows, row.length ≠ 1) →
        ∃ h, plainAnsi.Hilite h ++ "\n" ∈ writes ∧
          columnsBeginAt widths 2 sampleTable.titles h) ∧
      (∀ w ∈ writes, w = "\n" ∨ [w] ∈ sampleTable.rows ∨
        (∃ h, w = plainAnsi.Hilite h ++ "\n" ∧ columnsBeginAt widths 2 sampleTable.titles h) ∨
        ∃ row ∈ sampleTable.rows, row.length ≠ 1 ∧ ∃ line, w = line ++ "\n" ∧
          columnsBeginAt widths 2 row line) :=
  ⟨by decide, by decide,
   Display_columns_aligned plainAnsi sampleTable 2 2 (by decide) (by decide) (by decide)
     (by decide) (by decide) (by decide) (by decide)⟩

end Cloudway
